/-
Verification of the semantic diff engine of the factorio-api-docs-diff
repository, as a shallow embedding in Lean 4.

Modelling conventions, chosen once and used throughout:

* The thread-local CLI policy (`crate::CLI` in `src/main.rs`, flags
  `descriptions`, `examples`, `full`) is passed explicitly as a `Cli`
  parameter to every diff function; every `crate::CLI.with_borrow(...)`
  read in the source becomes a read of that parameter.
* Rust `HashMap<String, V>` (inside `DiffableVec`) is modelled as an
  association list `List (String × V)` whose keys are distinct; iteration
  order of the model is list order (the claims proved here only inspect
  the result through `List.lookup` / membership, never through order).
* A Rust panic (out-of-bounds indexing such as `diff[0]` on an empty
  vector, or a failing `assert!`) is modelled by the diff function
  returning `none`; `some r` means the Rust code returns `r` normally.
  Element diff functions that cannot panic are kept pure (return a plain
  list) and are lifted with `some` where a panicking signature is needed.
* Machine integers that are only ever compared for equality (`u64`,
  `i64`, `i16`, `u8`) are modelled as `Nat` / `Int`.
* `f64` values (only compared, never computed with) are modelled by their
  64-bit patterns as `Nat`, with `f64Eq` implementing exactly the IEEE-754
  partial equality used by Rust `==` on `f64`: NaN is unequal to
  everything (including itself) and `+0.0 == -0.0`.
-/
import Mathlib

set_option linter.unusedVariables false

/-- Policy flags of the CLI (`src/main.rs`, struct `Cli`): `descriptions`,
`examples` and `full` are the three switches consulted by the diff rules
(the `stage`/`source`/`target`/`local` fields play no role in diffing). -/
structure Cli where
  descriptions : Bool
  examples : Bool
  full : Bool
deriving DecidableEq

/-- Image node (`src/format.rs`, struct `Image`). -/
structure Image where
  filename : String
  caption : Option String
deriving DecidableEq

/-- NaN test on an `f64` bit pattern: exponent bits all ones and nonzero
mantissa. -/
def f64IsNan (x : Nat) : Bool :=
  (x >>> 52) % 2048 == 2047 && x % (2 ^ 52) != 0

/-- Zero test on an `f64` bit pattern: everything but the sign bit clear
(so `+0.0` and `-0.0` both qualify). -/
def f64IsZero (x : Nat) : Bool :=
  x % (2 ^ 63) == 0

/-- IEEE-754 equality on `f64` bit patterns, as used by Rust `==` on `f64`:
two values are equal iff neither is NaN and they are the same value
(same bits, or both zeros of either sign). -/
def f64Eq (x y : Nat) : Bool :=
  !f64IsNan x && !f64IsNan y && (x == y || (f64IsZero x && f64IsZero y))

/-- Insertion into an association list modelling `HashMap::insert`:
replaces the binding if the key is present, appends otherwise.  Keeps the
distinct-keys invariant. -/
def alistInsert {T : Type} (k : String) (v : T) : List (String × T) → List (String × T)
  | [] => [(k, v)]
  | (k2, v2) :: rest =>
      if k2 == k then (k, v) :: rest else (k2, v2) :: alistInsert k v rest

/-- Conversion of a `Vec<T>` into the map of a `DiffableVec<T>` keyed by
each element's name (`impl From<Vec<T>> for DiffableVec<T>` in
`src/format.rs`): sequential insertion, so a later duplicate name
overwrites an earlier one exactly as when collecting into a `HashMap`. -/
def alistFromList {T : Type} (name : T → String) (l : List T) : List (String × T) :=
  l.foldl (fun m v => alistInsert (name v) v m) []

/-- First phase of `DiffableVec::diff` (`src/format.rs` lines 68-77): walk
the source map `l`; a key also present in `b` contributes its record diff
only when that diff is non-empty, a key absent from `b` contributes the
diff of its record against the canonical default unconditionally. -/
def dvDiffA {T D : Type} (d : T → T → Option (List D)) (dft : T)
    (b : List (String × T)) : List (String × T) → Option (List (String × List D))
  | [] => some []
  | (k, v) :: rest =>
      match b.lookup k with
      | some o =>
          match d v o with
          | none => none
          | some dd =>
              match dvDiffA d dft b rest with
              | none => none
              | some tail => some (if dd.isEmpty then tail else (k, dd) :: tail)
      | none =>
          match d v dft with
          | none => none
          | some dd =>
              match dvDiffA d dft b rest with
              | none => none
              | some tail => some ((k, dd) :: tail)

/-- Second phase of `DiffableVec::diff` (`src/format.rs` lines 79-83): keys
of the target map not present in the source contribute the diff of the
canonical default against their record, unconditionally. -/
def dvDiffB {T D : Type} (d : T → T → Option (List D)) (dft : T)
    (aKeys : List String) : List (String × T) → Option (List (String × List D))
  | [] => some []
  | (k, v) :: rest =>
      if aKeys.contains k then dvDiffB d dft aKeys rest
      else
        match d dft v with
        | none => none
        | some dd =>
            match dvDiffB d dft aKeys rest with
            | none => none
            | some tail => some ((k, dd) :: tail)

/-- The generic keyed-collection differ `DiffableVec::diff`
(`src/format.rs` lines 65-86), for an element diff `d` and canonical
default `dft`.  The two `for` loops of the source are `dvDiffA` and
`dvDiffB`; the result collects their insertions. -/
def dvDiff {T D : Type} (d : T → T → Option (List D)) (dft : T)
    (a b : List (String × T)) : Option (List (String × List D)) :=
  match dvDiffA d dft b a with
  | none => none
  | some x =>
      match dvDiffB d dft (a.map Prod.fst) b with
      | none => none
      | some y => some (x ++ y)

/-- The `DiffableVec::full` operation (`src/format.rs` lines 88-94): every
present record is diffed against the canonical default. -/
def dvFull {T D : Type} (d : T → T → Option (List D)) (dft : T) :
    List (String × T) → Option (List (String × List D))
  | [] => some []
  | (k, v) :: rest =>
      match d v dft with
      | none => none
      | some dd =>
          match dvFull d dft rest with
          | none => none
          | some tail => some ((k, dd) :: tail)

/-- First phase of `DiffableVec::diff` for a panic-free element diff
(pure counterpart of `dvDiffA`, same source lines). -/
def dvDiffAP {T D : Type} (d : T → T → List D) (dft : T)
    (b : List (String × T)) : List (String × T) → List (String × List D)
  | [] => []
  | (k, v) :: rest =>
      match b.lookup k with
      | some o =>
          let dd := d v o
          let tail := dvDiffAP d dft b rest
          if dd.isEmpty then tail else (k, dd) :: tail
      | none => (k, d v dft) :: dvDiffAP d dft b rest

/-- Second phase of `DiffableVec::diff` for a panic-free element diff
(pure counterpart of `dvDiffB`). -/
def dvDiffBP {T D : Type} (d : T → T → List D) (dft : T)
    (aKeys : List String) : List (String × T) → List (String × List D)
  | [] => []
  | (k, v) :: rest =>
      if aKeys.contains k then dvDiffBP d dft aKeys rest
      else (k, d dft v) :: dvDiffBP d dft aKeys rest

/-- `DiffableVec::diff` (`src/format.rs` lines 65-86) for a panic-free
element diff: pure counterpart of `dvDiff`, used at element types whose
record diff cannot panic. -/
def dvDiffP {T D : Type} (d : T → T → List D) (dft : T)
    (a b : List (String × T)) : List (String × List D) :=
  dvDiffAP d dft b a ++ dvDiffBP d dft (a.map Prod.fst) b

/-- The generic sequence differ `vec_diff` (`src/format.rs` lines 127-143):
index-aligned; a source index missing from the target is diffed against
the canonical default (removal), a target index beyond the source length
is diffed from the canonical default (addition). -/
def vecDiff {T D : Type} (d : T → T → Option (List D)) (dft : T) :
    List T → List T → Option (List (List D))
  | [], [] => some []
  | [], n :: ns =>
      match d dft n with
      | none => none
      | some dd =>
          match vecDiff d dft [] ns with
          | none => none
          | some tail => some (dd :: tail)
  | v :: vs, [] =>
      match d v dft with
      | none => none
      | some dd =>
          match vecDiff d dft vs [] with
          | none => none
          | some tail => some (dd :: tail)
  | v :: vs, n :: ns =>
      match d v n with
      | none => none
      | some dd =>
          match vecDiff d dft vs ns with
          | none => none
          | some tail => some (dd :: tail)

/-- Size of an association list weighted by an element size function; used
only as a termination measure for the specialised instances of
`DiffableVec::diff` that sit inside recursive knots. -/
def sizeAWith {T : Type} (sz : T → Nat) : List (String × T) → Nat
  | [] => 0
  | (_, v) :: rest => sz v + sizeAWith sz rest + 1

/-- Size of a plain list weighted by an element size function; termination
measure helper. -/
def sizeLWith {T : Type} (sz : T → Nat) : List T → Nat
  | [] => 0
  | v :: rest => sz v + sizeLWith sz rest + 1

/-- Inserting a binding grows the weighted size by at most the size of the
inserted value plus one. -/
theorem sizeAWith_insert_le {T : Type} (sz : T → Nat) (k : String) (v : T) :
    ∀ m : List (String × T), sizeAWith sz (alistInsert k v m) ≤ sz v + 1 + sizeAWith sz m
  | [] => by simp [alistInsert, sizeAWith]
  | (k2, v2) :: rest => by
      simp only [alistInsert]
      by_cases h : (k2 == k) = true
      · simp [h, sizeAWith]; omega
      · simp only [h]
        simp only [Bool.false_eq_true, if_false, sizeAWith]
        have := sizeAWith_insert_le sz k v rest
        omega

/-- Helper bound for `alistFromList` expressed over `foldl`. -/
theorem sizeAWith_foldl_le {T : Type} (sz : T → Nat) (name : T → String) :
    ∀ (l : List T) (m : List (String × T)),
      sizeAWith sz (l.foldl (fun acc v => alistInsert (name v) v acc) m) ≤
        sizeAWith sz m + sizeLWith sz l
  | [], m => by simp [sizeLWith]
  | v :: rest, m => by
      simp only [List.foldl_cons, sizeLWith]
      have h1 := sizeAWith_foldl_le sz name rest (alistInsert (name v) v m)
      have h2 := sizeAWith_insert_le sz (name v) v m
      omega

/-- The map built from a vector is no larger than the vector (duplicate
names only drop elements). -/
theorem sizeAWith_fromList_le {T : Type} (sz : T → Nat) (name : T → String) (l : List T) :
    sizeAWith sz (alistFromList name l) ≤ sizeLWith sz l := by
  have := sizeAWith_foldl_le sz name l []
  simpa [alistFromList, sizeAWith] using this

/-- A value found by `lookup` is strictly smaller than its map. -/
theorem sizeAWith_lookup_le {T : Type} (sz : T → Nat) {k : String} {o : T} :
    ∀ {n : List (String × T)}, n.lookup k = some o → sz o + 1 ≤ sizeAWith sz n
  | [], h => by simp [List.lookup] at h
  | (k2, v2) :: rest, h => by
      rw [List.lookup] at h
      by_cases hk : (k == k2) = true
      · rw [hk] at h
        simp only [Option.some.injEq] at h
        subst h
        simp [sizeAWith]
      · rw [Bool.not_eq_true] at hk
        rw [hk] at h
        have := sizeAWith_lookup_le sz (n := rest) h
        simp only [sizeAWith]
        omega

namespace Proto

/-- Literal payload values (`src/format/prototype.rs`, enum `LiteralValue`).
`u64`/`i64` are modelled as `Nat`/`Int` (only equality is used), `f64` by
its bit pattern. -/
inductive LiteralValue where
  | string (s : String)
  | uint (u : Nat)
  | int (i : Int)
  | float (bits : Nat)
  | boolean (b : Bool)
deriving DecidableEq

/-- Rust's derived `PartialEq` on `LiteralValue`: structural except on
floats, where it is IEEE equality (so a NaN literal is unequal to
itself). -/
def LiteralValue.peq : LiteralValue → LiteralValue → Bool
  | .string a, .string b => a == b
  | .uint a, .uint b => a == b
  | .int a, .int b => a == b
  | .float a, .float b => f64Eq a b
  | .boolean a, .boolean b => a == b
  | _, _ => false

/-- True when the value holds no NaN float (such values compare equal to
themselves under Rust `==`). -/
def LiteralValue.nanFree : LiteralValue → Bool
  | .float bits => !f64IsNan bits
  | _ => true

/-- The `Default` of `LiteralValue`: `String(String::new())`. -/
def LiteralValue.default : LiteralValue := LiteralValue.string ("")

/-- Literal node (`src/format/prototype.rs`, struct `Literal`). -/
structure Literal where
  value : LiteralValue
  description : String
deriving DecidableEq

/-- Rust `PartialEq` on `Literal` (value via `LiteralValue.peq`). -/
def Literal.peq (a b : Literal) : Bool :=
  a.value.peq b.value && a.description == b.description

def Literal.nanFree (l : Literal) : Bool := l.value.nanFree

/-- The `Default` of `Literal`. -/
def Literal.default : Literal := { value := LiteralValue.default, description := ("") }

/-- Diff entries of a `Literal` (`enum LiteralDiff`). -/
inductive LiteralDiff where
  | value (v : LiteralValue)
  | description (s : String)
deriving DecidableEq

/-- `impl StructDiff for Literal`, fn `diff` (`src/format/prototype.rs`
lines 1113-1127): the value is a core field, the description is gated by
`descriptions || full`. -/
def Literal.diff (cli : Cli) (self updated : Literal) : List LiteralDiff :=
  (if !(self.value.peq updated.value) then [LiteralDiff.value updated.value] else []) ++
  (if (cli.descriptions || cli.full) && self.description != updated.description then
    [LiteralDiff.description updated.description]
  else [])

/-- Common documentation fields (`src/format/prototype.rs`, struct
`Common`). -/
structure Common where
  description : String
  lists : List String
  examples : List String
  images : List Image
deriving DecidableEq

def Common.default : Common :=
  { description := (""), lists := [], examples := [], images := [] }

/-- Diff entries of prototype `Common` (`enum CommonDiff`). -/
inductive CommonDiff where
  | description (s : String)
  | lists (l : List String)
  | examples (e : List String)
  | images (i : List Image)
deriving DecidableEq

/-- `impl StructDiff for Common`, fn `diff` (`src/format/prototype.rs`
lines 108-129): description gated by `descriptions || full`, lists and
images by `full`, examples by `examples || full`. -/
def Common.diff (cli : Cli) (self updated : Common) : List CommonDiff :=
  (if (cli.descriptions || cli.full) && self.description != updated.description then
    [CommonDiff.description updated.description]
  else []) ++
  (if cli.full && self.lists != updated.lists then [CommonDiff.lists updated.lists] else []) ++
  (if (cli.examples || cli.full) && self.examples != updated.examples then
    [CommonDiff.examples updated.examples]
  else []) ++
  (if cli.full && self.images != updated.images then [CommonDiff.images updated.images] else [])

/-- Named entity base (`src/format/prototype.rs`, struct `NamedCommon`).
The `order` field is an `i16` in the source, modelled as `Int`. -/
structure NamedCommon where
  common : Common
  name : String
  order : Int
deriving DecidableEq

def NamedCommon.default : NamedCommon :=
  { common := Common.default, name := (""), order := 0 }

/-- Diff entries of `NamedCommon` (`enum NamedCommonDiff`). -/
inductive NamedCommonDiff where
  | name (s : String)
  | order (o : Int)
  | description (s : String)
  | lists (l : List String)
  | examples (e : List String)
  | images (i : List Image)
deriving DecidableEq

/-- The remapping of base `CommonDiff` entries into `NamedCommonDiff`
entries performed by the `for` loop of `NamedCommon::diff`. -/
def NamedCommonDiff.ofCommon : CommonDiff → NamedCommonDiff
  | .description s => .description s
  | .lists l => .lists l
  | .examples e => .examples e
  | .images i => .images i

/-- `impl StructDiff for NamedCommon`, fn `diff` (`src/format/prototype.rs`
lines 172-198): name is a core field, order is gated by `full`, and the
base `Common` diff is appended with its tags remapped. -/
def NamedCommon.diff (cli : Cli) (self updated : NamedCommon) : List NamedCommonDiff :=
  (if self.name != updated.name then [NamedCommonDiff.name updated.name] else []) ++
  (if cli.full && self.order != updated.order then [NamedCommonDiff.order updated.order] else []) ++
  (if self.common != updated.common then
    (Common.diff cli self.common updated.common).map NamedCommonDiff.ofCommon
  else [])

end Proto

namespace Proto

mutual
/-- Type expression (`src/format/prototype.rs`, enum `Type`): a `Simple`
scalar name or a boxed `Complex` node. -/
inductive Ty where
  | simple (s : String)
  | complex (c : ComplexType)

/-- Complex type-expression node (`src/format/prototype.rs`, enum
`ComplexType`). -/
inductive ComplexType where
  | array (value : Ty)
  | dictionary (key : Ty) (value : Ty)
  | tuple (values : List Ty)
  | union (options : List Ty) (full_format : Bool)
  | type (value : Ty) (description : String)
  | literal (l : Literal)
  | struct
end

/-- The `Default` of `Type`: `Simple(String::new())`. -/
def Ty.default : Ty := Ty.simple ("")

/-- The `Default` of `ComplexType`: `Struct`. -/
def ComplexType.default : ComplexType := ComplexType.struct

mutual
/-- Structural size of a type expression; termination measure only. -/
def Ty.size : Ty → Nat
  | .simple _ => 1
  | .complex c => c.size + 1

/-- Structural size of a complex node; termination measure only. -/
def ComplexType.size : ComplexType → Nat
  | .array v => v.size + 1
  | .dictionary k v => k.size + v.size + 1
  | .tuple vs => Ty.sizeL vs + 1
  | .union os _ => Ty.sizeL os + 1
  | .type v _ => v.size + 1
  | .literal _ => 1
  | .struct => 1

/-- Structural size of a list of type expressions; termination measure
only. -/
def Ty.sizeL : List Ty → Nat
  | [] => 0
  | t :: ts => t.size + Ty.sizeL ts + 1
end

mutual
/-- Rust's derived `PartialEq` on `Type` (IEEE float semantics inside
literals). -/
def Ty.peq : Ty → Ty → Bool
  | .simple a, .simple b => a == b
  | .complex a, .complex b => a.peq b
  | _, _ => false

/-- Rust's derived `PartialEq` on `ComplexType`. -/
def ComplexType.peq : ComplexType → ComplexType → Bool
  | .array v, .array v2 => v.peq v2
  | .dictionary k v, .dictionary k2 v2 => k.peq k2 && v.peq v2
  | .tuple vs, .tuple vs2 => Ty.listPeq vs vs2
  | .union os f, .union os2 f2 => Ty.listPeq os os2 && f == f2
  | .type v d, .type v2 d2 => v.peq v2 && d == d2
  | .literal l, .literal l2 => l.peq l2
  | .struct, .struct => true
  | _, _ => false

/-- Rust's derived `PartialEq` on `Vec<Type>`. -/
def Ty.listPeq : List Ty → List Ty → Bool
  | [], [] => true
  | a :: as2, b :: bs => a.peq b && Ty.listPeq as2 bs
  | _, _ => false
end

mutual
/-- True when the type expression contains no NaN float literal. -/
def Ty.nanFree : Ty → Bool
  | .simple _ => true
  | .complex c => c.nanFree

def ComplexType.nanFree : ComplexType → Bool
  | .array v => v.nanFree
  | .dictionary k v => k.nanFree && v.nanFree
  | .tuple vs => Ty.listNanFree vs
  | .union os _ => Ty.listNanFree os
  | .type v _ => v.nanFree
  | .literal l => l.nanFree
  | .struct => true

def Ty.listNanFree : List Ty → Bool
  | [] => true
  | t :: ts => t.nanFree && Ty.listNanFree ts
end

mutual
/-- Diff entry of a `Type` (`src/format/prototype.rs`, enum `TypeDiff`):
either a replacement scalar name or the entries of a complex-node diff. -/
inductive TypeDiff where
  | simple (s : String)
  | complex (d : List ComplexTypeDiff)

/-- Diff entries of a `ComplexType` (`src/format/prototype.rs`, enum
`ComplexTypeDiff`).  `complexType` is the "variant tag changed" marker. -/
inductive ComplexTypeDiff where
  | complexType (s : String)
  | value (d : TypeDiff)
  | key (d : TypeDiff)
  | values (ds : List TypeDiff)
  | options (ds : List TypeDiff)
  | fullFormat (b : Bool)
  | description (s : String)
  | literal (v : LiteralValue)
end

/-- `TypeDiff::skip` (`src/format/prototype.rs` lines 748-756): a `Simple`
entry is never skipped, a `Complex` entry is skipped iff its entry list is
empty. -/
def TypeDiff.skip : TypeDiff → Bool
  | .simple _ => false
  | .complex c => c.isEmpty

/-- The mapping of `LiteralDiff` entries into `ComplexTypeDiff` entries
performed by the `for` loops of `ComplexType::diff` (value entries kept,
description entries gated by `descriptions || full`). -/
def litEntries (cli : Cli) : List LiteralDiff → List ComplexTypeDiff
  | [] => []
  | LiteralDiff.value v :: rest => ComplexTypeDiff.literal v :: litEntries cli rest
  | LiteralDiff.description d :: rest =>
      (if cli.descriptions || cli.full then [ComplexTypeDiff.description d] else []) ++
        litEntries cli rest

mutual
/-- `impl StructDiff for Type`, fn `diff` (`src/format/prototype.rs` lines
763-786).  Same-variant pairs diff their payloads (note: the
complex/complex arm calls `ComplexType::diff` without an equality guard);
a target `Simple` replacing a `Complex` is emitted wholesale; a target
`Complex` replacing a `Simple` is diffed from `ComplexType::default()`. -/
def Ty.diff (cli : Cli) : Ty → Ty → Option (List TypeDiff)
  | Ty.simple s, Ty.simple us =>
      some (if s != us then [TypeDiff.simple us] else [])
  | Ty.complex c, Ty.complex uc =>
      match ComplexType.diff cli c uc with
      | none => none
      | some d => some (if d.isEmpty then [] else [TypeDiff.complex d])
  | Ty.complex _, Ty.simple us => some [TypeDiff.simple us]
  | Ty.simple _, Ty.complex uc =>
      match ComplexType.diff cli ComplexType.default uc with
      | none => none
      | some d => some [TypeDiff.complex d]
termination_by t u => 2 * (t.size + u.size)
decreasing_by
all_goals simp only [Ty.size, ComplexType.size, Ty.sizeL, Ty.default, ComplexType.default]
all_goals omega

/-- `impl StructDiff for ComplexType`, fn `diff` (`src/format/prototype.rs`
lines 906-1082).  Same-variant pairs diff field by field; a variant change
falls into the final catch-all, which emits the "variant tag changed"
marker and then the target variant's payload diffed from
`Type::default()`.  The catch-all indexes `Type::default().diff(x)[0]`
without an emptiness check, which panics (modelled as `none`) whenever
`x` equals the default type expression. -/
def ComplexType.diff (cli : Cli) : ComplexType → ComplexType → Option (List ComplexTypeDiff)
  | ComplexType.array v, ComplexType.array uv =>
      if !(v.peq uv) then
        match Ty.diff cli v uv with
        | none => none
        | some [] => some []
        | some (d0 :: _) => some (if d0.skip then [] else [ComplexTypeDiff.value d0])
      else some []
  | ComplexType.dictionary k v, ComplexType.dictionary uk uv =>
      match
        (if !(k.peq uk) then
          match Ty.diff cli k uk with
          | none => none
          | some [] => some []
          | some (d0 :: _) => some (if d0.skip then [] else [ComplexTypeDiff.key d0])
        else some []) with
      | none => none
      | some kd =>
          match
            (if !(v.peq uv) then
              match Ty.diff cli v uv with
              | none => none
              | some [] => some []
              | some (d0 :: _) => some (if d0.skip then [] else [ComplexTypeDiff.value d0])
            else some []) with
          | none => none
          | some vd => some (kd ++ vd)
  | ComplexType.tuple vs, ComplexType.tuple uvs =>
      if !(Ty.listPeq vs uvs) then
        match Ty.vecDiff cli vs uvs with
        | none => none
        | some dss =>
            let d := dss.flatten.filter (fun v => !v.skip)
            some (if d.isEmpty then [] else [ComplexTypeDiff.values d])
      else some []
  | ComplexType.union os f, ComplexType.union uos uf =>
      match
        (if !(Ty.listPeq os uos) then
          match Ty.vecDiff cli os uos with
          | none => none
          | some dss =>
              let d := dss.flatten.filter (fun o => !o.skip)
              some (if d.isEmpty then [] else [ComplexTypeDiff.options d])
        else some []) with
      | none => none
      | some od =>
          some (od ++ (if f != uf then [ComplexTypeDiff.fullFormat uf] else []))
  | ComplexType.type v desc, ComplexType.type uv udesc =>
      match
        (if !(v.peq uv) then
          match Ty.diff cli v uv with
          | none => none
          | some [] => some []
          | some (d0 :: _) => some (if d0.skip then [] else [ComplexTypeDiff.value d0])
        else some []) with
      | none => none
      | some vd =>
          some (vd ++
            (if (cli.descriptions || cli.full) && desc != udesc then
              [ComplexTypeDiff.description udesc]
            else []))
  | ComplexType.literal l, ComplexType.literal ul =>
      if !(l.peq ul) then some (litEntries cli (Literal.diff cli l ul)) else some []
  | ComplexType.struct, ComplexType.struct => some []
  | a, u =>
      match u with
      | ComplexType.array value =>
          match Ty.diff cli Ty.default value with
          | none => none
          | some [] => none
          | some (d0 :: _) =>
              some [ComplexTypeDiff.complexType ("array"), ComplexTypeDiff.value d0]
      | ComplexType.dictionary key value =>
          match Ty.diff cli Ty.default key with
          | none => none
          | some [] => none
          | some (k0 :: _) =>
              match Ty.diff cli Ty.default value with
              | none => none
              | some [] => none
              | some (v0 :: _) =>
                  some [ComplexTypeDiff.complexType ("dictionary"),
                        ComplexTypeDiff.key k0, ComplexTypeDiff.value v0]
      | ComplexType.tuple values =>
          match Ty.defaultDiffList cli values with
          | none => none
          | some ds =>
              some [ComplexTypeDiff.complexType ("tuple"), ComplexTypeDiff.values ds]
      | ComplexType.union options f =>
          match Ty.defaultDiffList cli options with
          | none => none
          | some ds =>
              some [ComplexTypeDiff.complexType ("union"), ComplexTypeDiff.options ds,
                    ComplexTypeDiff.fullFormat f]
      | ComplexType.type value description =>
          match Ty.diff cli Ty.default value with
          | none => none
          | some [] => none
          | some (d0 :: _) =>
              some ([ComplexTypeDiff.complexType ("type"), ComplexTypeDiff.value d0] ++
                (if cli.descriptions || cli.full then
                  [ComplexTypeDiff.description description]
                else []))
      | ComplexType.literal l =>
          some (ComplexTypeDiff.complexType ("literal") ::
            litEntries cli (Literal.diff cli Literal.default l))
      | ComplexType.struct => some [ComplexTypeDiff.complexType ("struct")]
termination_by c u => 2 * (c.size + u.size) + 1
decreasing_by
all_goals simp only [Ty.size, ComplexType.size, Ty.sizeL, Ty.default, ComplexType.default]
all_goals omega

/-- `vec_diff` (`src/format.rs` lines 127-143) specialised to `Type`
elements: the instantiation used by the `Tuple`/`Union` arms of
`ComplexType::diff`.  Written as its own recursion only so that the
mutual termination argument can see it; it computes exactly
`vecDiff (Ty.diff cli) Ty.default`. -/
def Ty.vecDiff (cli : Cli) : List Ty → List Ty → Option (List (List TypeDiff))
  | [], [] => some []
  | [], n :: ns =>
      match Ty.diff cli Ty.default n with
      | none => none
      | some dd =>
          match Ty.vecDiff cli [] ns with
          | none => none
          | some tail => some (dd :: tail)
  | v :: vs, [] =>
      match Ty.diff cli v Ty.default with
      | none => none
      | some dd =>
          match Ty.vecDiff cli vs [] with
          | none => none
          | some tail => some (dd :: tail)
  | v :: vs, n :: ns =>
      match Ty.diff cli v n with
      | none => none
      | some dd =>
          match Ty.vecDiff cli vs ns with
          | none => none
          | some tail => some (dd :: tail)
termination_by a b => 2 * (Ty.sizeL a + Ty.sizeL b) + 1
decreasing_by
all_goals simp only [Ty.size, ComplexType.size, Ty.sizeL, Ty.default, ComplexType.default]
all_goals omega

/-- The `values.iter().map(|v| Type::default().diff(v)[0])` loops of the
catch-all arms of `ComplexType::diff`: each element of the new variant's
payload list is diffed from `Type::default()` and indexed at `[0]`
unconditionally, panicking (`none`) when that diff is empty. -/
def Ty.defaultDiffList (cli : Cli) : List Ty → Option (List TypeDiff)
  | [] => some []
  | v :: vs =>
      match Ty.diff cli Ty.default v with
      | none => none
      | some [] => none
      | some (d0 :: _) =>
          match Ty.defaultDiffList cli vs with
          | none => none
          | some rest => some (d0 :: rest)
termination_by l => 2 * Ty.sizeL l + 1
decreasing_by
all_goals simp only [Ty.size, ComplexType.size, Ty.sizeL, Ty.default, ComplexType.default]
all_goals omega
end

end Proto

namespace Proto

/-- Property default values (`src/format/prototype.rs`, enum
`PropertyDefault`). -/
inductive PropertyDefault where
  | string (s : String)
  | literal (l : Literal)
deriving DecidableEq

/-- Rust `PartialEq` on `PropertyDefault`. -/
def PropertyDefault.peq : PropertyDefault → PropertyDefault → Bool
  | .string a, .string b => a == b
  | .literal a, .literal b => a.peq b
  | _, _ => false

def PropertyDefault.nanFree : PropertyDefault → Bool
  | .string _ => true
  | .literal l => l.nanFree

/-- Rust `PartialEq` on `Option<PropertyDefault>`. -/
def optPdPeq : Option PropertyDefault → Option PropertyDefault → Bool
  | none, none => true
  | some a, some b => a.peq b
  | _, _ => false

def optPdNanFree : Option PropertyDefault → Bool
  | none => true
  | some a => a.nanFree

/-- Property node (`src/format/prototype.rs`, struct `Property`). -/
structure Property where
  common : NamedCommon
  alt_name : String
  override_ : Bool
  type_ : Ty
  optional : Bool
  default : Option PropertyDefault

def Property.name (p : Property) : String := p.common.name

def Property.default_ : Property :=
  { common := NamedCommon.default, alt_name := (""), override_ := false,
    type_ := Ty.default, optional := false, default := none }

def Property.nanFree (p : Property) : Bool :=
  p.type_.nanFree && optPdNanFree p.default

/-- Rust `PartialEq` on `Property` (type via `Ty.peq`, default via
`optPdPeq`, the rest structural). -/
def Property.peq (a b : Property) : Bool :=
  a.common == b.common && a.alt_name == b.alt_name && a.override_ == b.override_ &&
    a.type_.peq b.type_ && a.optional == b.optional && optPdPeq a.default b.default

/-- Diff entries of a `Property` (`enum PropertyDiff`). -/
inductive PropertyDiff where
  | name (s : String)
  | order (o : Int)
  | description (s : String)
  | lists (l : List String)
  | examples (e : List String)
  | images (i : List Image)
  | altName (s : String)
  | override_ (b : Bool)
  | type (d : TypeDiff)
  | optional (b : Bool)
  | default (d : Option PropertyDefault)

/-- Tag remapping of base `NamedCommonDiff` entries into `PropertyDiff`. -/
def PropertyDiff.ofNamedCommon : NamedCommonDiff → PropertyDiff
  | .name s => .name s
  | .order o => .order o
  | .description s => .description s
  | .lists l => .lists l
  | .examples e => .examples e
  | .images i => .images i

/-- The `if self.type_ != updated.type_ { ... }` block shared verbatim by
`TypeConcept::diff`, `Property::diff` and `CustomProperties::diff`
(`src/format/prototype.rs` lines 474-482, 579-587, 670-688): diff the two
type expressions, `assert!` that at most^W exactly one entry came back
(a violated assert is a panic, `none`), and keep the entry unless
`TypeDiff::skip` discards it.  `mk` builds the enclosing entry. -/
def typeFieldDiff {D : Type} (cli : Cli) (t ut : Ty) (mk : TypeDiff → D) :
    Option (List D) :=
  if !(t.peq ut) then
    match Ty.diff cli t ut with
    | none => none
    | some [] => some []
    | some [d0] => some (if d0.skip then [] else [mk d0])
    | some (_ :: _ :: _) => none
  else some []

/-- `impl StructDiff for Property`, fn `diff` (`src/format/prototype.rs`
lines 550-598). -/
def Property.diff (cli : Cli) (self updated : Property) : Option (List PropertyDiff) :=
  match typeFieldDiff cli self.type_ updated.type_ PropertyDiff.type with
  | none => none
  | some typePart =>
      some (
        (if self.common != updated.common then
          (let cd := NamedCommon.diff cli self.common updated.common
           if cd.isEmpty then [] else cd.map PropertyDiff.ofNamedCommon)
        else []) ++
        (if self.alt_name != updated.alt_name then [PropertyDiff.altName updated.alt_name] else []) ++
        (if self.override_ != updated.override_ then [PropertyDiff.override_ updated.override_] else []) ++
        typePart ++
        (if self.optional != updated.optional then [PropertyDiff.optional updated.optional] else []) ++
        (if !(optPdPeq self.default updated.default) then [PropertyDiff.default updated.default] else []))

/-- Custom-properties node (`src/format/prototype.rs`, struct
`CustomProperties`). -/
structure CustomProperties where
  common : Common
  key_type : Ty
  value_type : Ty

def CustomProperties.default_ : CustomProperties :=
  { common := Common.default, key_type := Ty.default, value_type := Ty.default }

def CustomProperties.nanFree (c : CustomProperties) : Bool :=
  c.key_type.nanFree && c.value_type.nanFree

/-- Rust `PartialEq` on `CustomProperties`. -/
def CustomProperties.peq (a b : CustomProperties) : Bool :=
  a.common == b.common && a.key_type.peq b.key_type && a.value_type.peq b.value_type

/-- Rust `PartialEq` on `Option<CustomProperties>`. -/
def optCpPeq : Option CustomProperties → Option CustomProperties → Bool
  | none, none => true
  | some a, some b => a.peq b
  | _, _ => false

def optCpNanFree : Option CustomProperties → Bool
  | none => true
  | some a => a.nanFree

/-- Diff entries of `CustomProperties` (`enum CustomPropertiesDiff`). -/
inductive CustomPropertiesDiff where
  | description (s : String)
  | lists (l : List String)
  | examples (e : List String)
  | images (i : List Image)
  | keyType (d : TypeDiff)
  | valueType (d : TypeDiff)

/-- Tag remapping of base `CommonDiff` entries into
`CustomPropertiesDiff`. -/
def CustomPropertiesDiff.ofCommon : CommonDiff → CustomPropertiesDiff
  | .description s => .description s
  | .lists l => .lists l
  | .examples e => .examples e
  | .images i => .images i

/-- `impl StructDiff for CustomProperties`, fn `diff`
(`src/format/prototype.rs` lines 651-691). -/
def CustomProperties.diff (cli : Cli) (self updated : CustomProperties) :
    Option (List CustomPropertiesDiff) :=
  match typeFieldDiff cli self.key_type updated.key_type CustomPropertiesDiff.keyType with
  | none => none
  | some keyPart =>
      match typeFieldDiff cli self.value_type updated.value_type CustomPropertiesDiff.valueType with
      | none => none
      | some valuePart =>
          some (
            (if self.common != updated.common then
              (let cd := Common.diff cli self.common updated.common
               if cd.isEmpty then [] else cd.map CustomPropertiesDiff.ofCommon)
            else []) ++
            keyPart ++ valuePart)

end Proto

namespace Proto

/-- Prototype record (`src/format/prototype.rs`, struct `Prototype`).
`properties` is a `DiffableVec<Property>`, modelled as an association
list keyed by property name. -/
structure Prototype where
  common : NamedCommon
  visibility : List String
  parent : String
  abstract_ : Bool
  typename : String
  instance_limit : String
  deprecated : Bool
  properties : List (String × Property)
  custom_properties : Option CustomProperties

def Prototype.name (p : Prototype) : String := p.common.name

def Prototype.default_ : Prototype :=
  { common := NamedCommon.default, visibility := [], parent := (""), abstract_ := false,
    typename := (""), instance_limit := (""), deprecated := false, properties := [],
    custom_properties := none }

def Prototype.nanFree (p : Prototype) : Bool :=
  p.properties.all (fun kv => kv.2.nanFree) && optCpNanFree p.custom_properties

/-- Diff entries of a `Prototype` (`enum PrototypeDiff`). -/
inductive PrototypeDiff where
  | name (s : String)
  | order (o : Int)
  | description (s : String)
  | lists (l : List String)
  | examples (e : List String)
  | images (i : List Image)
  | visibility (v : List String)
  | parent (s : String)
  | abstract_ (b : Bool)
  | typename (s : String)
  | instanceLimit (s : String)
  | deprecated (b : Bool)
  | properties (d : List (String × List PropertyDiff))
  | customProperties (d : List CustomPropertiesDiff)

/-- Tag remapping of base `NamedCommonDiff` entries into `PrototypeDiff`. -/
def PrototypeDiff.ofNamedCommon : NamedCommonDiff → PrototypeDiff
  | .name s => .name s
  | .order o => .order o
  | .description s => .description s
  | .lists l => .lists l
  | .examples e => .examples e
  | .images i => .images i

/-- `impl StructDiff for Prototype`, fn `diff` (`src/format/prototype.rs`
lines 276-341).  The properties collection is diffed unconditionally and
kept when non-empty; the `custom_properties` entry is pushed whenever the
options differ, carrying `updated.diff(old-or-default)` (note the source
really diffs in that reversed order) or an empty list when the update is
`None`. -/
def Prototype.diff (cli : Cli) (self updated : Prototype) : Option (List PrototypeDiff) :=
  match dvDiff (Property.diff cli) Property.default_ self.properties updated.properties with
  | none => none
  | some propertiesDiff =>
      match
        (if !(optCpPeq self.custom_properties updated.custom_properties) then
          match updated.custom_properties with
          | some cp =>
              match CustomProperties.diff cli cp
                  (self.custom_properties.getD CustomProperties.default_) with
              | none => none
              | some d => some [PrototypeDiff.customProperties d]
          | none => some [PrototypeDiff.customProperties []]
        else some []) with
      | none => none
      | some cpPart =>
          some (
            (if self.common != updated.common then
              (NamedCommon.diff cli self.common updated.common).map PrototypeDiff.ofNamedCommon
            else []) ++
            (if self.visibility != updated.visibility then
              [PrototypeDiff.visibility updated.visibility] else []) ++
            (if self.parent != updated.parent then [PrototypeDiff.parent updated.parent] else []) ++
            (if self.abstract_ != updated.abstract_ then
              [PrototypeDiff.abstract_ updated.abstract_] else []) ++
            (if self.typename != updated.typename then
              [PrototypeDiff.typename updated.typename] else []) ++
            (if self.instance_limit != updated.instance_limit then
              [PrototypeDiff.instanceLimit updated.instance_limit] else []) ++
            (if self.deprecated != updated.deprecated then
              [PrototypeDiff.deprecated updated.deprecated] else []) ++
            (if propertiesDiff.isEmpty then [] else [PrototypeDiff.properties propertiesDiff]) ++
            cpPart)

/-- Type-concept record (`src/format/prototype.rs`, struct `TypeConcept`). -/
structure TypeConcept where
  common : NamedCommon
  parent : String
  abstract_ : Bool
  inline : Bool
  type_ : Ty
  properties : List (String × Property)

def TypeConcept.name (t : TypeConcept) : String := t.common.name

def TypeConcept.default_ : TypeConcept :=
  { common := NamedCommon.default, parent := (""), abstract_ := false, inline := false,
    type_ := Ty.default, properties := [] }

def TypeConcept.nanFree (t : TypeConcept) : Bool :=
  t.type_.nanFree && t.properties.all (fun kv => kv.2.nanFree)

/-- Diff entries of a `TypeConcept` (`enum TypeConceptDiff`). -/
inductive TypeConceptDiff where
  | name (s : String)
  | order (o : Int)
  | description (s : String)
  | lists (l : List String)
  | examples (e : List String)
  | images (i : List Image)
  | parent (s : String)
  | abstract_ (b : Bool)
  | inline (b : Bool)
  | type (d : TypeDiff)
  | properties (d : List (String × List PropertyDiff))

/-- Tag remapping of base `NamedCommonDiff` entries into
`TypeConceptDiff`. -/
def TypeConceptDiff.ofNamedCommon : NamedCommonDiff → TypeConceptDiff
  | .name s => .name s
  | .order o => .order o
  | .description s => .description s
  | .lists l => .lists l
  | .examples e => .examples e
  | .images i => .images i

/-- `impl StructDiff for TypeConcept`, fn `diff` (`src/format/prototype.rs`
lines 441-490): base fields, then the type expression (with the
`assert!(diff.len() == 1)` and `skip` handling of the source), then the
properties collection diffed unconditionally. -/
def TypeConcept.diff (cli : Cli) (self updated : TypeConcept) :
    Option (List TypeConceptDiff) :=
  match typeFieldDiff cli self.type_ updated.type_ TypeConceptDiff.type with
  | none => none
  | some typePart =>
      match dvDiff (Property.diff cli) Property.default_ self.properties updated.properties with
      | none => none
      | some propertiesDiff =>
          some (
            (if self.common != updated.common then
              (let cd := NamedCommon.diff cli self.common updated.common
               if cd.isEmpty then [] else cd.map TypeConceptDiff.ofNamedCommon)
            else []) ++
            (if self.parent != updated.parent then
              [TypeConceptDiff.parent updated.parent] else []) ++
            (if self.abstract_ != updated.abstract_ then
              [TypeConceptDiff.abstract_ updated.abstract_] else []) ++
            (if self.inline != updated.inline then [TypeConceptDiff.inline updated.inline] else []) ++
            typePart ++
            (if propertiesDiff.isEmpty then [] else [TypeConceptDiff.properties propertiesDiff]))

end Proto

namespace Rt

/-- Runtime common fields (`src/format/runtime.rs`, struct `Common`):
name, order (an `i16`, modelled as `Int`) and description.  Also the
`DefineValue` alias. -/
structure Common where
  name : String
  order : Int
  description : String
deriving DecidableEq

def Common.default : Common := { name := (""), order := 0, description := ("") }

/-- Diff entries of runtime `Common` (`enum CommonDiff`). -/
inductive CommonDiff where
  | name (s : String)
  | order (o : Int)
  | description (s : String)
deriving DecidableEq

/-- `impl StructDiff for Common`, fn `diff` (`src/format/runtime.rs` lines
116-133): name always, description gated by `descriptions || full`, order
gated by `full` — pushed in that order. -/
def Common.diff (cli : Cli) (self updated : Common) : List CommonDiff :=
  (if self.name != updated.name then [CommonDiff.name updated.name] else []) ++
  (if self.description != updated.description && (cli.descriptions || cli.full) then
    [CommonDiff.description updated.description]
  else []) ++
  (if self.order != updated.order && cli.full then [CommonDiff.order updated.order] else [])

/-- Basic member (`src/format/runtime.rs`, struct `BasicMember`). -/
structure BasicMember where
  common : Common
  lists : List String
  examples : List String
  images : List Image
deriving DecidableEq

def BasicMember.name (b : BasicMember) : String := b.common.name

def BasicMember.default : BasicMember :=
  { common := Common.default, lists := [], examples := [], images := [] }

/-- Diff entries of `BasicMember` (`enum BasicMemberDiff`). -/
inductive BasicMemberDiff where
  | name (s : String)
  | order (o : Int)
  | description (s : String)
  | lists (l : List String)
  | examples (e : List String)
  | images (i : List Image)
deriving DecidableEq

/-- Tag remapping of `CommonDiff` entries into `BasicMemberDiff`. -/
def BasicMemberDiff.ofCommon : CommonDiff → BasicMemberDiff
  | .name s => .name s
  | .order o => .order o
  | .description s => .description s

/-- `impl StructDiff for BasicMember`, fn `diff` (`src/format/runtime.rs`
lines 184-214).  Note the gates of this schema: `lists` is gated by
`descriptions || full` (not by `full` alone), `examples` by
`examples || full`, `images` by `full`. -/
def BasicMember.diff (cli : Cli) (self updated : BasicMember) : List BasicMemberDiff :=
  (if self.common != updated.common then
    (Common.diff cli self.common updated.common).map BasicMemberDiff.ofCommon
  else []) ++
  (if self.lists != updated.lists && (cli.descriptions || cli.full) then
    [BasicMemberDiff.lists updated.lists]
  else []) ++
  (if self.examples != updated.examples && (cli.examples || cli.full) then
    [BasicMemberDiff.examples updated.examples]
  else []) ++
  (if self.images != updated.images && cli.full then
    [BasicMemberDiff.images updated.images]
  else [])

/-- Raise timeframe (`src/format/runtime.rs`, enum `TimeFrame`). -/
inductive TimeFrame where
  | instantly
  | currentTick
  | futureTick
deriving DecidableEq

/-- Raised-event record (`src/format/runtime.rs`, struct `EventRaised`). -/
structure EventRaised where
  common : Common
  timeframe : TimeFrame
  optional : Bool
deriving DecidableEq

def EventRaised.name (e : EventRaised) : String := e.common.name

def EventRaised.default : EventRaised :=
  { common := Common.default, timeframe := TimeFrame.instantly, optional := false }

/-- Diff entries of `EventRaised` (`enum EventRaisedDiff`). -/
inductive EventRaisedDiff where
  | name (s : String)
  | order (o : Int)
  | description (s : String)
  | timeframe (t : TimeFrame)
  | optional (b : Bool)
deriving DecidableEq

/-- Tag remapping of `CommonDiff` entries into `EventRaisedDiff`. -/
def EventRaisedDiff.ofCommon : CommonDiff → EventRaisedDiff
  | .name s => .name s
  | .order o => .order o
  | .description s => .description s

/-- `impl StructDiff for EventRaised`, fn `diff` (`src/format/runtime.rs`
lines 742-767). -/
def EventRaised.diff (cli : Cli) (self updated : EventRaised) : List EventRaisedDiff :=
  (if self.common != updated.common then
    (Common.diff cli self.common updated.common).map EventRaisedDiff.ofCommon
  else []) ++
  (if self.timeframe != updated.timeframe then
    [EventRaisedDiff.timeframe updated.timeframe]
  else []) ++
  (if self.optional != updated.optional then [EventRaisedDiff.optional updated.optional] else [])

/-- Define record (`src/format/runtime.rs`, struct `Define`): recursive
through its `subkeys` collection; `values` is a `DiffableVec<DefineValue>`
where `DefineValue = Common`. -/
inductive Define where
  | mk (common : BasicMember) (values : List (String × Common))
      (subkeys : List (String × Define))

def Define.common : Define → BasicMember
  | .mk c _ _ => c

def Define.values : Define → List (String × Common)
  | .mk _ v _ => v

def Define.subkeys : Define → List (String × Define)
  | .mk _ _ s => s

def Define.name (d : Define) : String := d.common.common.name

def Define.default : Define := Define.mk BasicMember.default [] []

mutual
/-- Structural size of a `Define`; termination measure only. -/
def Define.size : Define → Nat
  | .mk _ _ subkeys => Define.sizeA subkeys + 1

def Define.sizeA : List (String × Define) → Nat
  | [] => 0
  | (_, d) :: rest => Define.size d + Define.sizeA rest + 1
end

mutual
/-- Rust's derived `PartialEq` on `Define` (structural; a `Define` holds
no floats). -/
def Define.beq : Define → Define → Bool
  | .mk c v s, .mk c2 v2 s2 => c == c2 && v == v2 && Define.abeq s s2

/-- Equality of two `subkeys` maps. -/
def Define.abeq : List (String × Define) → List (String × Define) → Bool
  | [], [] => true
  | (k, d) :: rest, (k2, d2) :: rest2 => k == k2 && Define.beq d d2 && Define.abeq rest rest2
  | _, _ => false
end

/-- Diff entries of a `Define` (`enum DefineDiff`). -/
inductive DefineDiff where
  | name (s : String)
  | order (o : Int)
  | description (s : String)
  | lists (l : List String)
  | examples (e : List String)
  | images (i : List Image)
  | values (d : List (String × List CommonDiff))
  | subkeys (d : List (String × List DefineDiff))

/-- Tag remapping of `BasicMemberDiff` entries into `DefineDiff`. -/
def DefineDiff.ofBasicMember : BasicMemberDiff → DefineDiff
  | .name s => .name s
  | .order o => .order o
  | .description s => .description s
  | .lists l => .lists l
  | .examples e => .examples e
  | .images i => .images i

/-- Bridge between the specialised and the generic weighted size. -/
theorem Define.sizeA_eq : ∀ l : List (String × Define), sizeAWith Define.size l = Define.sizeA l
  | [] => rfl
  | (_, d) :: rest => by
      simp only [sizeAWith, Define.sizeA]
      rw [Define.sizeA_eq rest]

mutual
/-- `impl StructDiff for Define`, fn `diff` (`src/format/runtime.rs` lines
647-683): base fields, then the `values` and `subkeys` collections, each
diffed when unequal and kept when non-empty.  A `Define` diff cannot
panic, so this instance stays pure. -/
def Define.diff (cli : Cli) : Define → Define → List DefineDiff
  | Define.mk c v s, Define.mk uc uv us =>
      (if c != uc then
        (BasicMember.diff cli c uc).map DefineDiff.ofBasicMember
      else []) ++
      (if v != uv then
        (let d := dvDiffP (fun a b => Common.diff cli a b) Common.default v uv
         if d.isEmpty then [] else [DefineDiff.values d])
      else []) ++
      (if !(Define.abeq s us) then
        (let d := Define.dvDiff cli s us
         if d.isEmpty then [] else [DefineDiff.subkeys d])
      else [])
termination_by a b => 2 * (a.size + b.size)
decreasing_by
all_goals (try simp only [Define.size, Define.sizeA])
all_goals omega

/-- `DiffableVec::diff` (`src/format.rs` lines 65-86) specialised to
`Define` elements: its own recursion only so that the mutual termination
argument can see it; semantically it is `dvDiff` at the pure, panic-free
element diff `Define.diff`. -/
def Define.dvDiff (cli : Cli) (a b : List (String × Define)) :
    List (String × List DefineDiff) :=
  Define.dvDiffA cli b a ++ Define.dvDiffB cli (a.map Prod.fst) b
termination_by 2 * (Define.sizeA a + Define.sizeA b) + 2
decreasing_by
all_goals (try simp only [Define.size, Define.sizeA])
all_goals omega

/-- First loop of `DiffableVec::diff` at `Define` elements. -/
def Define.dvDiffA (cli : Cli) (b : List (String × Define)) :
    List (String × Define) → List (String × List DefineDiff)
  | [] => []
  | (k, v) :: rest =>
      match h : b.lookup k with
      | some o =>
          let dd := Define.diff cli v o
          let tail := Define.dvDiffA cli b rest
          if dd.isEmpty then tail else (k, dd) :: tail
      | none =>
          (k, Define.diff cli v Define.default) :: Define.dvDiffA cli b rest
termination_by l => 2 * (Define.sizeA l + Define.sizeA b) + 1
decreasing_by
all_goals (try simp only [Define.size, Define.sizeA, Define.default, BasicMember.default])
all_goals (try omega)
all_goals (have hb := sizeAWith_lookup_le Define.size h; have he := Define.sizeA_eq b; omega)

/-- Second loop of `DiffableVec::diff` at `Define` elements. -/
def Define.dvDiffB (cli : Cli) (aKeys : List String) :
    List (String × Define) → List (String × List DefineDiff)
  | [] => []
  | (k, v) :: rest =>
      if aKeys.contains k then Define.dvDiffB cli aKeys rest
      else (k, Define.diff cli Define.default v) :: Define.dvDiffB cli aKeys rest
termination_by l => 2 * Define.sizeA l + 1
decreasing_by
all_goals (try simp only [Define.size, Define.sizeA, Define.default, BasicMember.default])
all_goals omega

end

end Rt

namespace Rt

mutual
/-- Runtime type expression (`src/format/runtime.rs`, enum `Type`). -/
inductive Ty where
  | simple (s : String)
  | complex (c : ComplexType)

/-- Runtime complex type-expression node (`src/format/runtime.rs`, enum
`ComplexType`).  `Unknown` is the `#[serde(skip)]` placeholder variant. -/
inductive ComplexType where
  | type (value : Ty) (description : String)
  | union (options : List Ty) (full_format : Bool)
  | array (value : Ty)
  | dictionary (key : Ty) (value : Ty)
  | luaCustomTable (key : Ty) (value : Ty)
  | function (parameters : List Ty)
  | literal (l : Proto.Literal)
  | luaLazyLoadedValue (value : Ty)
  | luaStruct (attributes : List Attribute)
  | table (parameters : List Parameter) (variant_parameter_groups : List ParameterGroup)
      (variant_parameter_description : String)
  | tuple (values : List Ty)
  | builtin
  | unknown

/-- Attribute record (`src/format/runtime.rs`, struct `Attribute`); part of
the recursive knot through `ComplexType::LuaStruct`. -/
inductive Attribute where
  | mk (common : BasicMember) (visibility : List String) (raises : List EventRaised)
      (subclasses : List String) (type_ : Ty) (optional : Bool) (read : Bool) (write : Bool)

/-- Parameter record (`src/format/runtime.rs`, struct `Parameter`); part of
the recursive knot through `ComplexType::Table`. -/
inductive Parameter where
  | mk (common : Common) (type_ : Ty) (optional : Bool)

/-- Parameter group (`src/format/runtime.rs`, struct `ParameterGroup`). -/
inductive ParameterGroup where
  | mk (common : Common) (parameters : List Parameter)
end

def Ty.default : Ty := Ty.simple ("")

def Attribute.common2 : Attribute → BasicMember
  | .mk c _ _ _ _ _ _ _ => c

def Attribute.type_ : Attribute → Ty
  | .mk _ _ _ _ t _ _ _ => t

def Attribute.name (a : Attribute) : String := a.common2.common.name

def Attribute.default : Attribute :=
  Attribute.mk BasicMember.default [] [] [] Ty.default false false false

def Parameter.common2 : Parameter → Common
  | .mk c _ _ => c

def Parameter.type_ : Parameter → Ty
  | .mk _ t _ => t

def Parameter.name (p : Parameter) : String := p.common2.name

def Parameter.default : Parameter := Parameter.mk Common.default Ty.default false

def ParameterGroup.common2 : ParameterGroup → Common
  | .mk c _ => c

def ParameterGroup.name (g : ParameterGroup) : String := g.common2.name

def ParameterGroup.default : ParameterGroup := ParameterGroup.mk Common.default []

mutual
/-- Structural sizes of the runtime knot; termination measures only. -/
def Ty.size : Ty → Nat
  | .simple _ => 1
  | .complex c => c.size + 1

def ComplexType.size : ComplexType → Nat
  | .type v _ => v.size + 1
  | .union os _ => Ty.sizeL os + 1
  | .array v => v.size + 1
  | .dictionary k v => k.size + v.size + 1
  | .luaCustomTable k v => k.size + v.size + 1
  | .function ps => Ty.sizeL ps + 1
  | .literal _ => 1
  | .luaLazyLoadedValue v => v.size + 1
  | .luaStruct attrs => Attribute.sizeL attrs + 2
  | .table ps gs _ => Parameter.sizeL ps + ParameterGroup.sizeL gs + 3
  | .tuple vs => Ty.sizeL vs + 1
  | .builtin => 1
  | .unknown => 1

def Attribute.size : Attribute → Nat
  | .mk _ _ _ _ t _ _ _ => t.size + 1

def Parameter.size : Parameter → Nat
  | .mk _ t _ => t.size + 1

def ParameterGroup.size : ParameterGroup → Nat
  | .mk _ ps => Parameter.sizeL ps + 2

def Ty.sizeL : List Ty → Nat
  | [] => 0
  | t :: ts => t.size + Ty.sizeL ts + 1

def Attribute.sizeL : List Attribute → Nat
  | [] => 0
  | a :: rest => a.size + Attribute.sizeL rest + 1

def Parameter.sizeL : List Parameter → Nat
  | [] => 0
  | p :: rest => p.size + Parameter.sizeL rest + 1

def ParameterGroup.sizeL : List ParameterGroup → Nat
  | [] => 0
  | g :: rest => g.size + ParameterGroup.sizeL rest + 1
end

/-- Every runtime complex node has positive size. -/
theorem rtComplexSizePos : ∀ c : ComplexType, 0 < c.size := by
  intro c
  cases c <;> simp [ComplexType.size]

/-- Bridges between the specialised list sizes and the generic weighted
size. -/
theorem rtAttrSizeLEq : ∀ l : List Attribute, sizeLWith Attribute.size l = Attribute.sizeL l
  | [] => rfl
  | a :: rest => by
      simp only [sizeLWith, Attribute.sizeL]
      rw [rtAttrSizeLEq rest]

theorem rtParamSizeLEq : ∀ l : List Parameter, sizeLWith Parameter.size l = Parameter.sizeL l
  | [] => rfl
  | a :: rest => by
      simp only [sizeLWith, Parameter.sizeL]
      rw [rtParamSizeLEq rest]

theorem rtGroupSizeLEq :
    ∀ l : List ParameterGroup, sizeLWith ParameterGroup.size l = ParameterGroup.sizeL l
  | [] => rfl
  | a :: rest => by
      simp only [sizeLWith, ParameterGroup.sizeL]
      rw [rtGroupSizeLEq rest]

mutual
/-- Rust's derived `PartialEq` on runtime `Type` (IEEE float semantics
inside literals). -/
def Ty.peq : Ty → Ty → Bool
  | .simple a, .simple b => a == b
  | .complex a, .complex b => a.peq b
  | _, _ => false

/-- Rust's derived `PartialEq` on runtime `ComplexType`. -/
def ComplexType.peq : ComplexType → ComplexType → Bool
  | .type v d, .type v2 d2 => v.peq v2 && d == d2
  | .union os f, .union os2 f2 => Ty.listPeq os os2 && f == f2
  | .array v, .array v2 => v.peq v2
  | .dictionary k v, .dictionary k2 v2 => k.peq k2 && v.peq v2
  | .luaCustomTable k v, .luaCustomTable k2 v2 => k.peq k2 && v.peq v2
  | .function ps, .function ps2 => Ty.listPeq ps ps2
  | .literal l, .literal l2 => l.peq l2
  | .luaLazyLoadedValue v, .luaLazyLoadedValue v2 => v.peq v2
  | .luaStruct a, .luaStruct a2 => Attribute.listPeq a a2
  | .table ps gs d, .table ps2 gs2 d2 =>
      Parameter.listPeq ps ps2 && ParameterGroup.listPeq gs gs2 && d == d2
  | .tuple vs, .tuple vs2 => Ty.listPeq vs vs2
  | .builtin, .builtin => true
  | .unknown, .unknown => true
  | _, _ => false

def Attribute.peq : Attribute → Attribute → Bool
  | .mk c vis raises subs t opt r w, .mk c2 vis2 raises2 subs2 t2 opt2 r2 w2 =>
      c == c2 && vis == vis2 && raises == raises2 && subs == subs2 && t.peq t2 &&
        opt == opt2 && r == r2 && w == w2

def Parameter.peq : Parameter → Parameter → Bool
  | .mk c t opt, .mk c2 t2 opt2 => c == c2 && t.peq t2 && opt == opt2

def ParameterGroup.peq : ParameterGroup → ParameterGroup → Bool
  | .mk c ps, .mk c2 ps2 => c == c2 && Parameter.listPeq ps ps2

def Ty.listPeq : List Ty → List Ty → Bool
  | [], [] => true
  | a :: as2, b :: bs => a.peq b && Ty.listPeq as2 bs
  | _, _ => false

def Attribute.listPeq : List Attribute → List Attribute → Bool
  | [], [] => true
  | a :: as2, b :: bs => a.peq b && Attribute.listPeq as2 bs
  | _, _ => false

def Parameter.listPeq : List Parameter → List Parameter → Bool
  | [], [] => true
  | a :: as2, b :: bs => a.peq b && Parameter.listPeq as2 bs
  | _, _ => false

def ParameterGroup.listPeq : List ParameterGroup → List ParameterGroup → Bool
  | [], [] => true
  | a :: as2, b :: bs => a.peq b && ParameterGroup.listPeq as2 bs
  | _, _ => false
end

end Rt

namespace Rt

mutual
/-- Diff entry of a runtime `Type` (`src/format/runtime.rs`, enum
`TypeDiff`). -/
inductive TypeDiff where
  | simple (s : String)
  | complex (d : List ComplexTypeDiff)

/-- Diff entries of a runtime `ComplexType` (`src/format/runtime.rs`, enum
`ComplexTypeDiff`). -/
inductive ComplexTypeDiff where
  | complexType (s : String)
  | value (d : TypeDiff)
  | key (d : TypeDiff)
  | options (ds : List TypeDiff)
  | fullFormat (b : Bool)
  | description (s : String)
  | attributes (d : List (String × List AttributeDiff))
  | functionParameters (ds : List TypeDiff)
  | tableTupleParameters (d : List (String × List ParameterDiff))
  | variantParameterGroups (d : List (String × List ParameterGroupDiff))
  | variantParameterDescription (s : String)
  | values (ds : List TypeDiff)
  | literal (v : Proto.LiteralValue)

/-- Diff entries of an `Attribute` (`enum AttributeDiff`). -/
inductive AttributeDiff where
  | name (s : String)
  | order (o : Int)
  | description (s : String)
  | lists (l : List String)
  | examples (e : List String)
  | images (i : List Image)
  | visibility (v : List String)
  | raises (d : List (String × List EventRaisedDiff))
  | subclasses (s : List String)
  | type (d : TypeDiff)
  | optional (b : Bool)
  | read (b : Bool)
  | write (b : Bool)

/-- Diff entries of a `Parameter` (`enum ParameterDiff`). -/
inductive ParameterDiff where
  | name (s : String)
  | order (o : Int)
  | description (s : String)
  | type (d : TypeDiff)
  | optional (b : Bool)

/-- Diff entries of a `ParameterGroup` (`enum ParameterGroupDiff`). -/
inductive ParameterGroupDiff where
  | name (s : String)
  | order (o : Int)
  | description (s : String)
  | parameters (d : List (String × List ParameterDiff))
end

/-- Runtime `TypeDiff::skip` (`src/format/runtime.rs` lines 817-825). -/
def TypeDiff.skip : TypeDiff → Bool
  | .simple _ => false
  | .complex c => c.isEmpty

/-- The mapping of `LiteralDiff` entries into runtime `ComplexTypeDiff`
entries performed by the `for` loops of the `Literal` arms of
`ComplexType::diff` (value entries kept, description entries gated by
`descriptions || full`). -/
def litEntries (cli : Cli) : List Proto.LiteralDiff → List ComplexTypeDiff
  | [] => []
  | Proto.LiteralDiff.value v :: rest => ComplexTypeDiff.literal v :: litEntries cli rest
  | Proto.LiteralDiff.description d :: rest =>
      (if cli.descriptions || cli.full then [ComplexTypeDiff.description d] else []) ++
        litEntries cli rest

/-- Tag remapping of `BasicMemberDiff` entries into `AttributeDiff`. -/
def AttributeDiff.ofBasicMember : BasicMemberDiff → AttributeDiff
  | .name s => .name s
  | .order o => .order o
  | .description s => .description s
  | .lists l => .lists l
  | .examples e => .examples e
  | .images i => .images i

/-- Tag remapping of `CommonDiff` entries into `ParameterDiff`. -/
def ParameterDiff.ofCommon : CommonDiff → ParameterDiff
  | .name s => .name s
  | .order o => .order o
  | .description s => .description s

/-- Tag remapping of `CommonDiff` entries into `ParameterGroupDiff`. -/
def ParameterGroupDiff.ofCommon : CommonDiff → ParameterGroupDiff
  | .name s => .name s
  | .order o => .order o
  | .description s => .description s

set_option maxHeartbeats 1600000 in
mutual
/-- `impl StructDiff for Type` (runtime), fn `diff` (`src/format/runtime.rs`
lines 831-858).  Unlike the prototype version, the complex/complex arm is
guarded by an equality test; the simple-to-complex mismatch diffs the new
node from `ComplexType::Unknown`. -/
def Ty.diff (cli : Cli) : Ty → Ty → Option (List TypeDiff)
  | Ty.simple s, Ty.simple us => some (if s != us then [TypeDiff.simple us] else [])
  | Ty.complex c, Ty.complex uc =>
      if !(c.peq uc) then
        match ComplexType.diff cli c uc with
        | none => none
        | some d => some (if d.isEmpty then [] else [TypeDiff.complex d])
      else some []
  | Ty.complex _, Ty.simple us => some [TypeDiff.simple us]
  | Ty.simple _, Ty.complex uc =>
      match ComplexType.diff cli ComplexType.unknown uc with
      | none => none
      | some d => some [TypeDiff.complex d]
termination_by t u => 2 * (t.size + u.size)
decreasing_by
all_goals (try simp only [Ty.size, ComplexType.size])
all_goals omega

/-- The `if x != u_x { let diff = x.diff(u_x); if !diff.is_empty() &&
!diff[0].skip() { res.push(mk(diff[0])) } }` block that the runtime schema
repeats for every type-expression field (e.g. `src/format/runtime.rs`
lines 957-963, 996-1002, 1018-1032, 1315-1321, 1848-1854); `mk` builds the
enclosing entry. -/
def typeFieldDiffRt {D : Type} (cli : Cli) (t ut : Ty) (mk : TypeDiff → D) :
    Option (List D) :=
  if !(t.peq ut) then
    match Ty.diff cli t ut with
    | none => none
    | some [] => some []
    | some (d0 :: _) => some (if d0.skip then [] else [mk d0])
  else some []
termination_by 2 * (t.size + ut.size) + 1
decreasing_by
all_goals omega

/-- `impl StructDiff for ComplexType` (runtime), fn `diff`
(`src/format/runtime.rs` lines 946-1246).  Same-variant pairs diff field
by field; a variant change falls into the catch-all, which emits the
variant marker and the new variant's payload diffed from defaults, with
the same unguarded `[0]` indexing as the prototype schema (modelled as
`none`). -/
def ComplexType.diff (cli : Cli) : ComplexType → ComplexType → Option (List ComplexTypeDiff)
  | ComplexType.type v desc, ComplexType.type uv udesc =>
      match typeFieldDiffRt cli v uv ComplexTypeDiff.value with
      | none => none
      | some vd =>
          some (vd ++
            (if (cli.descriptions || cli.full) && desc != udesc then
              [ComplexTypeDiff.description udesc]
            else []))
  | ComplexType.union os f, ComplexType.union uos uf =>
      match
        (if !(Ty.listPeq os uos) then
          match Ty.vecDiff cli os uos with
          | none => none
          | some dss =>
              some [ComplexTypeDiff.options (dss.flatten.filter (fun o => !o.skip))]
        else some []) with
      | none => none
      | some od => some (od ++ (if f != uf then [ComplexTypeDiff.fullFormat uf] else []))
  | ComplexType.array v, ComplexType.array uv =>
      typeFieldDiffRt cli v uv ComplexTypeDiff.value
  | ComplexType.luaLazyLoadedValue v, ComplexType.luaLazyLoadedValue uv =>
      typeFieldDiffRt cli v uv ComplexTypeDiff.value
  | ComplexType.dictionary k v, ComplexType.dictionary uk uv =>
      match typeFieldDiffRt cli k uk ComplexTypeDiff.key with
      | none => none
      | some kd =>
          match typeFieldDiffRt cli v uv ComplexTypeDiff.value with
          | none => none
          | some vd => some (kd ++ vd)
  | ComplexType.luaCustomTable k v, ComplexType.luaCustomTable uk uv =>
      match typeFieldDiffRt cli k uk ComplexTypeDiff.key with
      | none => none
      | some kd =>
          match typeFieldDiffRt cli v uv ComplexTypeDiff.value with
          | none => none
          | some vd => some (kd ++ vd)
  | ComplexType.function ps, ComplexType.function ups =>
      if !(Ty.listPeq ps ups) then
        match Ty.vecDiff cli ps ups with
        | none => none
        | some dss =>
            some [ComplexTypeDiff.functionParameters (dss.flatten.filter (fun p => !p.skip))]
      else some []
  | ComplexType.literal l, ComplexType.literal ul =>
      if !(l.peq ul) then some (litEntries cli (Proto.Literal.diff cli l ul)) else some []
  | ComplexType.luaStruct attrs, ComplexType.luaStruct uattrs =>
      if !(Attribute.listPeq attrs uattrs) then
        match Attribute.dvDiffVec cli attrs uattrs with
        | none => none
        | some d => some (if d.isEmpty then [] else [ComplexTypeDiff.attributes d])
      else some []
  | ComplexType.table ps gs vdesc, ComplexType.table ups ugs uvdesc =>
      match
        (if !(Parameter.listPeq ps ups) then
          match Parameter.dvDiffVec cli ps ups with
          | none => none
          | some d => some (if d.isEmpty then [] else [ComplexTypeDiff.tableTupleParameters d])
        else some []) with
      | none => none
      | some pd =>
          match
            (if !(ParameterGroup.listPeq gs ugs) then
              match ParameterGroup.dvDiffVec cli gs ugs with
              | none => none
              | some d => some [ComplexTypeDiff.variantParameterGroups d]
            else some []) with
          | none => none
          | some gd =>
              some (pd ++ gd ++
                (if (cli.descriptions || cli.full) && vdesc != uvdesc then
                  [ComplexTypeDiff.variantParameterDescription uvdesc]
                else []))
  | ComplexType.tuple vs, ComplexType.tuple uvs =>
      if !(Ty.listPeq vs uvs) then
        match Ty.vecDiff cli vs uvs with
        | none => none
        | some dss =>
            some [ComplexTypeDiff.values (dss.flatten.filter (fun v => !v.skip))]
      else some []
  | ComplexType.builtin, ComplexType.builtin => some []
  | a, u =>
      match u with
      | ComplexType.type value description =>
          match Ty.diff cli Ty.default value with
          | none => none
          | some [] => none
          | some (d0 :: _) =>
              some ([ComplexTypeDiff.complexType ("type"), ComplexTypeDiff.value d0] ++
                (if cli.descriptions || cli.full then
                  [ComplexTypeDiff.description description]
                else []))
      | ComplexType.union options f =>
          match Ty.defaultDiffList cli options with
          | none => none
          | some ds =>
              some [ComplexTypeDiff.complexType ("union"), ComplexTypeDiff.options ds,
                    ComplexTypeDiff.fullFormat f]
      | ComplexType.array value =>
          match Ty.diff cli Ty.default value with
          | none => none
          | some [] => none
          | some (d0 :: _) =>
              some [ComplexTypeDiff.complexType ("array"), ComplexTypeDiff.value d0]
      | ComplexType.dictionary key value =>
          match Ty.diff cli Ty.default key with
          | none => none
          | some [] => none
          | some (k0 :: _) =>
              match Ty.diff cli Ty.default value with
              | none => none
              | some [] => none
              | some (v0 :: _) =>
                  some [ComplexTypeDiff.complexType ("dictionary"),
                        ComplexTypeDiff.key k0, ComplexTypeDiff.value v0]
      | ComplexType.luaCustomTable key value =>
          match Ty.diff cli Ty.default key with
          | none => none
          | some [] => none
          | some (k0 :: _) =>
              match Ty.diff cli Ty.default value with
              | none => none
              | some [] => none
              | some (v0 :: _) =>
                  some [ComplexTypeDiff.complexType ("LuaCustomTable"),
                        ComplexTypeDiff.key k0, ComplexTypeDiff.value v0]
      | ComplexType.function parameters =>
          match Ty.defaultFlatDiffList cli parameters with
          | none => none
          | some ds =>
              some [ComplexTypeDiff.complexType ("function"),
                    ComplexTypeDiff.functionParameters ds]
      | ComplexType.literal l =>
          some (ComplexTypeDiff.complexType ("literal") ::
            litEntries cli (Proto.Literal.diff cli Proto.Literal.default l))
      | ComplexType.luaLazyLoadedValue value =>
          match Ty.diff cli Ty.default value with
          | none => none
          | some [] => none
          | some (d0 :: _) =>
              some [ComplexTypeDiff.complexType ("LuaLazyLoadedValue"),
                    ComplexTypeDiff.value d0]
      | ComplexType.luaStruct attributes =>
          match Attribute.dvFullVec cli attributes with
          | none => none
          | some d =>
              some [ComplexTypeDiff.complexType ("LuaStruct"), ComplexTypeDiff.attributes d]
      | ComplexType.table parameters variant_parameter_groups variant_parameter_description =>
          match Parameter.dvFullVec cli parameters with
          | none => none
          | some pd =>
              match ParameterGroup.dvFullVec cli variant_parameter_groups with
              | none => none
              | some gd =>
                  some ([ComplexTypeDiff.complexType ("table"),
                         ComplexTypeDiff.tableTupleParameters pd,
                         ComplexTypeDiff.variantParameterGroups gd] ++
                    (if cli.descriptions || cli.full then
                      [ComplexTypeDiff.variantParameterDescription variant_parameter_description]
                    else []))
      | ComplexType.tuple values =>
          match Ty.defaultDiffList cli values with
          | none => none
          | some ds =>
              some [ComplexTypeDiff.complexType ("tuple"), ComplexTypeDiff.values ds]
      | ComplexType.builtin => some [ComplexTypeDiff.complexType ("builtin")]
      | ComplexType.unknown => some []
termination_by c u => 2 * (c.size + u.size) + 1
decreasing_by
all_goals (try simp only [Ty.size, ComplexType.size, Attribute.size, Parameter.size,
  ParameterGroup.size, Ty.sizeL, Attribute.sizeL, Parameter.sizeL, ParameterGroup.sizeL,
  Ty.default])
all_goals omega

/-- `vec_diff` (`src/format.rs` lines 127-143) specialised to runtime
`Type` elements (the `Union`/`Function`/`Tuple` arms); written as its own
recursion only for the mutual termination argument. -/
def Ty.vecDiff (cli : Cli) : List Ty → List Ty → Option (List (List TypeDiff))
  | [], [] => some []
  | [], n :: ns =>
      match Ty.diff cli Ty.default n with
      | none => none
      | some dd =>
          match Ty.vecDiff cli [] ns with
          | none => none
          | some tail => some (dd :: tail)
  | v :: vs, [] =>
      match Ty.diff cli v Ty.default with
      | none => none
      | some dd =>
          match Ty.vecDiff cli vs [] with
          | none => none
          | some tail => some (dd :: tail)
  | v :: vs, n :: ns =>
      match Ty.diff cli v n with
      | none => none
      | some dd =>
          match Ty.vecDiff cli vs ns with
          | none => none
          | some tail => some (dd :: tail)
termination_by x y => 2 * (Ty.sizeL x + Ty.sizeL y) + 1
decreasing_by
all_goals (try simp only [Ty.size, ComplexType.size, Ty.sizeL, Ty.default])
all_goals omega

/-- The `.map(|v| Type::default().diff(v)[0])` loops of the runtime
catch-all arms (`Union`/`Tuple` additions): unguarded `[0]` indexing,
panicking (`none`) when a payload element equals the default type. -/
def Ty.defaultDiffList (cli : Cli) : List Ty → Option (List TypeDiff)
  | [] => some []
  | v :: vs =>
      match Ty.diff cli Ty.default v with
      | none => none
      | some [] => none
      | some (d0 :: _) =>
          match Ty.defaultDiffList cli vs with
          | none => none
          | some rest => some (d0 :: rest)
termination_by l => 2 * Ty.sizeL l + 1
decreasing_by
all_goals (try simp only [Ty.size, ComplexType.size, Ty.sizeL, Ty.default])
all_goals omega

/-- The `.flat_map(|p| Type::default().diff(p))` loop of the runtime
catch-all `Function` arm (`src/format/runtime.rs` lines 1170-1178): no
indexing, so it cannot panic by itself. -/
def Ty.defaultFlatDiffList (cli : Cli) : List Ty → Option (List TypeDiff)
  | [] => some []
  | v :: vs =>
      match Ty.diff cli Ty.default v with
      | none => none
      | some dd =>
          match Ty.defaultFlatDiffList cli vs with
          | none => none
          | some rest => some (dd ++ rest)
termination_by l => 2 * Ty.sizeL l + 1
decreasing_by
all_goals (try simp only [Ty.size, ComplexType.size, Ty.sizeL, Ty.default])
all_goals omega

/-- `impl StructDiff for Parameter`, fn `diff` (`src/format/runtime.rs`
lines 1299-1328). -/
def Parameter.diff (cli : Cli) : Parameter → Parameter → Option (List ParameterDiff)
  | Parameter.mk c t opt, Parameter.mk uc ut uopt =>
      match typeFieldDiffRt cli t ut ParameterDiff.type with
      | none => none
      | some typePart =>
          some (
            (if c != uc then (Common.diff cli c uc).map ParameterDiff.ofCommon else []) ++
            typePart ++
            (if opt != uopt then [ParameterDiff.optional uopt] else []))
termination_by p q => 2 * (p.size + q.size)
decreasing_by
all_goals (try simp only [Parameter.size, Ty.size])
all_goals omega

/-- `impl StructDiff for Attribute`, fn `diff` (`src/format/runtime.rs`
lines 1811-1869).  The `raises` list is diffed through the panic-free
generic collection differ (its `EventRaised` element diff cannot
panic). -/
def Attribute.diff (cli : Cli) : Attribute → Attribute → Option (List AttributeDiff)
  | Attribute.mk c vis raises subs t opt r w, Attribute.mk uc uvis uraises usubs ut uopt ur uw =>
      match typeFieldDiffRt cli t ut AttributeDiff.type with
      | none => none
      | some typePart =>
          some (
            (if c != uc then (BasicMember.diff cli c uc).map AttributeDiff.ofBasicMember
             else []) ++
            (if vis != uvis then [AttributeDiff.visibility uvis] else []) ++
            (if raises != uraises then
              (let d := dvDiffP (fun x y => EventRaised.diff cli x y) EventRaised.default
                  (alistFromList EventRaised.name raises) (alistFromList EventRaised.name uraises)
               if d.isEmpty then [] else [AttributeDiff.raises d])
            else []) ++
            (if subs != usubs then [AttributeDiff.subclasses usubs] else []) ++
            typePart ++
            (if opt != uopt then [AttributeDiff.optional uopt] else []) ++
            (if r != ur then [AttributeDiff.read ur] else []) ++
            (if w != uw then [AttributeDiff.write uw] else []))
termination_by x y => 2 * (x.size + y.size)
decreasing_by
all_goals (try simp only [Attribute.size, Ty.size])
all_goals omega

/-- `impl StructDiff for ParameterGroup`, fn `diff`
(`src/format/runtime.rs` lines 1436-1463): base fields, then the
parameters vector converted to a `DiffableVec` and diffed. -/
def ParameterGroup.diff (cli : Cli) :
    ParameterGroup → ParameterGroup → Option (List ParameterGroupDiff)
  | ParameterGroup.mk c ps, ParameterGroup.mk uc ups =>
      match
        (if !(Parameter.listPeq ps ups) then
          match Parameter.dvDiffVec cli ps ups with
          | none => none
          | some d => some (if d.isEmpty then [] else [ParameterGroupDiff.parameters d])
        else some []) with
      | none => none
      | some paramPart =>
          some ((if c != uc then (Common.diff cli c uc).map ParameterGroupDiff.ofCommon
                 else []) ++ paramPart)
termination_by g h2 => 2 * (g.size + h2.size)
decreasing_by
all_goals (try simp only [ParameterGroup.size, Parameter.sizeL, Parameter.size])
all_goals omega

/-- The `let orig: DiffableVec<Parameter> = v.clone().into(); let updated =
u.clone().into(); orig.diff(&updated)` pattern of the `Table` arms and of
`ParameterGroup::diff`: conversion of the two vectors into name-keyed
maps followed by `DiffableVec::diff`. -/
def Parameter.dvDiffVec (cli : Cli) (a b : List Parameter) :
    Option (List (String × List ParameterDiff)) :=
  Parameter.dvDiff cli (alistFromList Parameter.name a) (alistFromList Parameter.name b)
termination_by 2 * (Parameter.sizeL a + Parameter.sizeL b) + 5
decreasing_by
all_goals
  (have h1 := sizeAWith_fromList_le Parameter.size Parameter.name a
   have h2 := sizeAWith_fromList_le Parameter.size Parameter.name b
   have h3 := rtParamSizeLEq a
   have h4 := rtParamSizeLEq b
   omega)

/-- First loop of `DiffableVec::diff` (`src/format.rs` lines 68-77) at
`Parameter` elements; specialised for the mutual termination argument. -/
def Parameter.dvDiffA (cli : Cli) (b : List (String × Parameter)) :
    List (String × Parameter) → Option (List (String × List ParameterDiff))
  | [] => some []
  | (k, v) :: rest =>
      match h : b.lookup k with
      | some o =>
          match Parameter.diff cli v o with
          | none => none
          | some dd =>
              match Parameter.dvDiffA cli b rest with
              | none => none
              | some tail => some (if dd.isEmpty then tail else (k, dd) :: tail)
      | none =>
          match Parameter.diff cli v Parameter.default with
          | none => none
          | some dd =>
              match Parameter.dvDiffA cli b rest with
              | none => none
              | some tail => some ((k, dd) :: tail)
termination_by l => 2 * (sizeAWith Parameter.size l + sizeAWith Parameter.size b) + 3
decreasing_by
all_goals (try simp only [Parameter.size, Ty.size, Ty.default, Parameter.default,
  Common.default, sizeAWith])
all_goals (first
  | omega
  | (have h1 := sizeAWith_lookup_le Parameter.size h; omega)
  | (rename_i h; have h1 := sizeAWith_lookup_le Parameter.size h; omega))

/-- Second loop of `DiffableVec::diff` (`src/format.rs` lines 79-83) at
`Parameter` elements. -/
def Parameter.dvDiffB (cli : Cli) (aKeys : List String) :
    List (String × Parameter) → Option (List (String × List ParameterDiff))
  | [] => some []
  | (k, v) :: rest =>
      if aKeys.contains k then Parameter.dvDiffB cli aKeys rest
      else
        match Parameter.diff cli Parameter.default v with
        | none => none
        | some dd =>
            match Parameter.dvDiffB cli aKeys rest with
            | none => none
            | some tail => some ((k, dd) :: tail)
termination_by l => 2 * sizeAWith Parameter.size l + 3
decreasing_by
all_goals (try simp only [Parameter.size, Ty.size, Ty.default, Parameter.default,
  Common.default, sizeAWith])
all_goals omega

/-- `DiffableVec::diff` at `Parameter` elements. -/
def Parameter.dvDiff (cli : Cli) (m n : List (String × Parameter)) :
    Option (List (String × List ParameterDiff)) :=
  match Parameter.dvDiffA cli n m with
  | none => none
  | some x =>
      match Parameter.dvDiffB cli (m.map Prod.fst) n with
      | none => none
      | some y => some (x ++ y)
termination_by 2 * (sizeAWith Parameter.size m + sizeAWith Parameter.size n) + 4
decreasing_by
all_goals omega

/-- `DiffableVec::full` (`src/format.rs` lines 88-94) at `Parameter`
elements. -/
def Parameter.dvFull (cli : Cli) :
    List (String × Parameter) → Option (List (String × List ParameterDiff))
  | [] => some []
  | (k, v) :: rest =>
      match Parameter.diff cli v Parameter.default with
      | none => none
      | some dd =>
          match Parameter.dvFull cli rest with
          | none => none
          | some tail => some ((k, dd) :: tail)
termination_by l => 2 * sizeAWith Parameter.size l + 3
decreasing_by
all_goals (try simp only [Parameter.size, Ty.size, Ty.default, Parameter.default,
  Common.default, sizeAWith])
all_goals omega

/-- The `params.full()` pattern of the catch-all `Table` addition:
conversion of the vector into a name-keyed map followed by
`DiffableVec::full`. -/
def Parameter.dvFullVec (cli : Cli) (l : List Parameter) :
    Option (List (String × List ParameterDiff)) :=
  Parameter.dvFull cli (alistFromList Parameter.name l)
termination_by 2 * Parameter.sizeL l + 4
decreasing_by
all_goals
  (have h1 := sizeAWith_fromList_le Parameter.size Parameter.name l
   have h3 := rtParamSizeLEq l
   omega)

/-- Vector-to-map conversion plus `DiffableVec::diff` at `Attribute`
elements (the `LuaStruct` arm). -/
def Attribute.dvDiffVec (cli : Cli) (a b : List Attribute) :
    Option (List (String × List AttributeDiff)) :=
  Attribute.dvDiff cli (alistFromList Attribute.name a) (alistFromList Attribute.name b)
termination_by 2 * (Attribute.sizeL a + Attribute.sizeL b) + 5
decreasing_by
all_goals
  (have h1 := sizeAWith_fromList_le Attribute.size Attribute.name a
   have h2 := sizeAWith_fromList_le Attribute.size Attribute.name b
   have h3 := rtAttrSizeLEq a
   have h4 := rtAttrSizeLEq b
   omega)

/-- First loop of `DiffableVec::diff` at `Attribute` elements. -/
def Attribute.dvDiffA (cli : Cli) (b : List (String × Attribute)) :
    List (String × Attribute) → Option (List (String × List AttributeDiff))
  | [] => some []
  | (k, v) :: rest =>
      match h : b.lookup k with
      | some o =>
          match Attribute.diff cli v o with
          | none => none
          | some dd =>
              match Attribute.dvDiffA cli b rest with
              | none => none
              | some tail => some (if dd.isEmpty then tail else (k, dd) :: tail)
      | none =>
          match Attribute.diff cli v Attribute.default with
          | none => none
          | some dd =>
              match Attribute.dvDiffA cli b rest with
              | none => none
              | some tail => some ((k, dd) :: tail)
termination_by l => 2 * (sizeAWith Attribute.size l + sizeAWith Attribute.size b) + 3
decreasing_by
all_goals (try simp only [Attribute.size, Ty.size, Ty.default, Attribute.default,
  BasicMember.default, Common.default, sizeAWith])
all_goals (first
  | omega
  | (have h1 := sizeAWith_lookup_le Attribute.size h; omega)
  | (rename_i h; have h1 := sizeAWith_lookup_le Attribute.size h; omega))

/-- Second loop of `DiffableVec::diff` at `Attribute` elements. -/
def Attribute.dvDiffB (cli : Cli) (aKeys : List String) :
    List (String × Attribute) → Option (List (String × List AttributeDiff))
  | [] => some []
  | (k, v) :: rest =>
      if aKeys.contains k then Attribute.dvDiffB cli aKeys rest
      else
        match Attribute.diff cli Attribute.default v with
        | none => none
        | some dd =>
            match Attribute.dvDiffB cli aKeys rest with
            | none => none
            | some tail => some ((k, dd) :: tail)
termination_by l => 2 * sizeAWith Attribute.size l + 3
decreasing_by
all_goals (try simp only [Attribute.size, Ty.size, Ty.default, Attribute.default,
  BasicMember.default, Common.default, sizeAWith])
all_goals omega

/-- `DiffableVec::diff` at `Attribute` elements. -/
def Attribute.dvDiff (cli : Cli) (m n : List (String × Attribute)) :
    Option (List (String × List AttributeDiff)) :=
  match Attribute.dvDiffA cli n m with
  | none => none
  | some x =>
      match Attribute.dvDiffB cli (m.map Prod.fst) n with
      | none => none
      | some y => some (x ++ y)
termination_by 2 * (sizeAWith Attribute.size m + sizeAWith Attribute.size n) + 4
decreasing_by
all_goals omega

/-- `DiffableVec::full` at `Attribute` elements. -/
def Attribute.dvFull (cli : Cli) :
    List (String × Attribute) → Option (List (String × List AttributeDiff))
  | [] => some []
  | (k, v) :: rest =>
      match Attribute.diff cli v Attribute.default with
      | none => none
      | some dd =>
          match Attribute.dvFull cli rest with
          | none => none
          | some tail => some ((k, dd) :: tail)
termination_by l => 2 * sizeAWith Attribute.size l + 3
decreasing_by
all_goals (try simp only [Attribute.size, Ty.size, Ty.default, Attribute.default,
  BasicMember.default, Common.default, sizeAWith])
all_goals omega

/-- The `attributes.full()` pattern of the catch-all `LuaStruct`
addition. -/
def Attribute.dvFullVec (cli : Cli) (l : List Attribute) :
    Option (List (String × List AttributeDiff)) :=
  Attribute.dvFull cli (alistFromList Attribute.name l)
termination_by 2 * Attribute.sizeL l + 4
decreasing_by
all_goals
  (have h1 := sizeAWith_fromList_le Attribute.size Attribute.name l
   have h3 := rtAttrSizeLEq l
   omega)

/-- Vector-to-map conversion plus `DiffableVec::diff` at `ParameterGroup`
elements (the `Table` arm). -/
def ParameterGroup.dvDiffVec (cli : Cli) (a b : List ParameterGroup) :
    Option (List (String × List ParameterGroupDiff)) :=
  ParameterGroup.dvDiff cli (alistFromList ParameterGroup.name a)
    (alistFromList ParameterGroup.name b)
termination_by 2 * (ParameterGroup.sizeL a + ParameterGroup.sizeL b) + 5
decreasing_by
all_goals
  (have h1 := sizeAWith_fromList_le ParameterGroup.size ParameterGroup.name a
   have h2 := sizeAWith_fromList_le ParameterGroup.size ParameterGroup.name b
   have h3 := rtGroupSizeLEq a
   have h4 := rtGroupSizeLEq b
   omega)

/-- First loop of `DiffableVec::diff` at `ParameterGroup` elements. -/
def ParameterGroup.dvDiffA (cli : Cli) (b : List (String × ParameterGroup)) :
    List (String × ParameterGroup) → Option (List (String × List ParameterGroupDiff))
  | [] => some []
  | (k, v) :: rest =>
      match h : b.lookup k with
      | some o =>
          match ParameterGroup.diff cli v o with
          | none => none
          | some dd =>
              match ParameterGroup.dvDiffA cli b rest with
              | none => none
              | some tail => some (if dd.isEmpty then tail else (k, dd) :: tail)
      | none =>
          match ParameterGroup.diff cli v ParameterGroup.default with
          | none => none
          | some dd =>
              match ParameterGroup.dvDiffA cli b rest with
              | none => none
              | some tail => some ((k, dd) :: tail)
termination_by l => 2 * (sizeAWith ParameterGroup.size l + sizeAWith ParameterGroup.size b) + 3
decreasing_by
all_goals (try simp only [ParameterGroup.size, Parameter.sizeL, Ty.default,
  ParameterGroup.default, Common.default, sizeAWith])
all_goals (first
  | omega
  | (have h1 := sizeAWith_lookup_le ParameterGroup.size h; omega)
  | (rename_i h; have h1 := sizeAWith_lookup_le ParameterGroup.size h; omega))

/-- Second loop of `DiffableVec::diff` at `ParameterGroup` elements. -/
def ParameterGroup.dvDiffB (cli : Cli) (aKeys : List String) :
    List (String × ParameterGroup) → Option (List (String × List ParameterGroupDiff))
  | [] => some []
  | (k, v) :: rest =>
      if aKeys.contains k then ParameterGroup.dvDiffB cli aKeys rest
      else
        match ParameterGroup.diff cli ParameterGroup.default v with
        | none => none
        | some dd =>
            match ParameterGroup.dvDiffB cli aKeys rest with
            | none => none
            | some tail => some ((k, dd) :: tail)
termination_by l => 2 * sizeAWith ParameterGroup.size l + 3
decreasing_by
all_goals (try simp only [ParameterGroup.size, Parameter.sizeL, Ty.default,
  ParameterGroup.default, Common.default, sizeAWith])
all_goals omega

/-- `DiffableVec::diff` at `ParameterGroup` elements. -/
def ParameterGroup.dvDiff (cli : Cli) (m n : List (String × ParameterGroup)) :
    Option (List (String × List ParameterGroupDiff)) :=
  match ParameterGroup.dvDiffA cli n m with
  | none => none
  | some x =>
      match ParameterGroup.dvDiffB cli (m.map Prod.fst) n with
      | none => none
      | some y => some (x ++ y)
termination_by 2 * (sizeAWith ParameterGroup.size m + sizeAWith ParameterGroup.size n) + 4
decreasing_by
all_goals omega

/-- `DiffableVec::full` at `ParameterGroup` elements. -/
def ParameterGroup.dvFull (cli : Cli) :
    List (String × ParameterGroup) → Option (List (String × List ParameterGroupDiff))
  | [] => some []
  | (k, v) :: rest =>
      match ParameterGroup.diff cli v ParameterGroup.default with
      | none => none
      | some dd =>
          match ParameterGroup.dvFull cli rest with
          | none => none
          | some tail => some ((k, dd) :: tail)
termination_by l => 2 * sizeAWith ParameterGroup.size l + 3
decreasing_by
all_goals (try simp only [ParameterGroup.size, Parameter.sizeL, Ty.default,
  ParameterGroup.default, Common.default, sizeAWith])
all_goals omega

/-- The `groups.full()` pattern of the catch-all `Table` addition. -/
def ParameterGroup.dvFullVec (cli : Cli) (l : List ParameterGroup) :
    Option (List (String × List ParameterGroupDiff)) :=
  ParameterGroup.dvFull cli (alistFromList ParameterGroup.name l)
termination_by 2 * ParameterGroup.sizeL l + 4
decreasing_by
all_goals
  (have h1 := sizeAWith_fromList_le ParameterGroup.size ParameterGroup.name l
   have h3 := rtGroupSizeLEq l
   omega)
end

end Rt

/-- Application tag (`src/format.rs`, enum `Application`). -/
inductive Application where
  | factorio
deriving DecidableEq

/-- Stage tag (`src/format.rs`, enum `Stage`). -/
inductive Stage where
  | prototype
  | runtime
deriving DecidableEq

/-- Format header (`src/format.rs`, struct `Common`): application, stage,
application version and api version (a `u8`, modelled as `Nat`). -/
structure FormatCommon where
  application : Application
  stage : Stage
  application_version : String
  api_version : Nat
deriving DecidableEq

def FormatCommon.default : FormatCommon :=
  { application := Application.factorio, stage := Stage.prototype,
    application_version := (""), api_version := 0 }

namespace Proto

/-- Prototype document root (`src/format/prototype.rs`, struct
`PrototypeDoc`): the format header plus three keyed collections. -/
structure PrototypeDoc where
  common : FormatCommon
  prototypes : List (String × Prototype)
  types : List (String × TypeConcept)
  defines : List (String × Rt.Define)

/-- Diff tree of a prototype document (`struct PrototypeDocDiff`). -/
structure PrototypeDocDiff where
  prototypes : List (String × List PrototypeDiff)
  types : List (String × List TypeConceptDiff)
  defines : List (String × List Rt.DefineDiff)
deriving Inhabited

/-- `impl Doc for PrototypeDoc`, fn `diff` (`src/format/prototype.rs` lines
43-53): the three keyed collections are diffed independently with
`DiffableVec::diff` (the `defines` collection through its specialised,
panic-free instance). -/
def PrototypeDoc.diff (cli : Cli) (self other : PrototypeDoc) : Option PrototypeDocDiff :=
  match dvDiff (Prototype.diff cli) Prototype.default_ self.prototypes other.prototypes with
  | none => none
  | some p =>
      match dvDiff (TypeConcept.diff cli) TypeConcept.default_ self.types other.types with
      | none => none
      | some t =>
          some { prototypes := p, types := t,
                 defines := Rt.Define.dvDiff cli self.defines other.defines }

end Proto

/-- The distinct-keys invariant every `HashMap`-backed `DiffableVec` holds
by construction. -/
def keysNodup {T : Type} (l : List (String × T)) : Prop :=
  (l.map Prod.fst).Nodup

/-- In a map with distinct keys, `lookup` finds exactly the member
binding. -/
theorem lookupOfMem {T : Type} {k : String} {v : T} :
    ∀ {l : List (String × T)}, keysNodup l → (k, v) ∈ l → l.lookup k = some v
  | [], _, hm => by simp at hm
  | (k2, v2) :: rest, hn, hm => by
      rcases List.mem_cons.mp hm with heq | hmem
      · cases heq
        simp [List.lookup]
      · have hn2 : (k2 :: rest.map Prod.fst).Nodup := hn
        have hk : ¬(k == k2) = true := by
          intro hkk
          have hk2 : k = k2 := by simpa using hkk
          subst hk2
          exact (List.nodup_cons.mp hn2).1 (List.mem_map.mpr ⟨(k, v), hmem, rfl⟩)
        have hrest : keysNodup rest := (List.nodup_cons.mp hn2).2
        simp only [List.lookup, hk]
        simpa using lookupOfMem hrest hmem

/-- `lookup` misses keys that are not in the map. -/
theorem lookupNoneOfNotMem {T : Type} {k : String} :
    ∀ {l : List (String × T)}, k ∉ l.map Prod.fst → l.lookup k = none
  | [], _ => rfl
  | (k2, v2) :: rest, hm => by
      have hk : ¬(k == k2) = true := by
        intro hkk
        exact hm (by simp [show k = k2 from by simpa using hkk])
      simp only [List.lookup, hk]
      exact lookupNoneOfNotMem (fun hin => hm (by simp [hin]))

/-- A successful `lookup` produces a member binding. -/
theorem memOfLookup {T : Type} {k : String} {v : T} :
    ∀ {l : List (String × T)}, l.lookup k = some v → (k, v) ∈ l
  | [], h => by simp [List.lookup] at h
  | (k2, v2) :: rest, h => by
      by_cases hbk : (k == k2) = true
      · have hk : k = k2 := by simpa using hbk
        subst hk
        simp only [List.lookup, hbk] at h
        simp at h
        simp [h]
      · simp only [List.lookup] at h
        rw [Bool.not_eq_true] at hbk
        rw [hbk] at h
        exact List.mem_cons_of_mem _ (memOfLookup h)

/-- A key present in the map is found by `lookup`. -/
theorem lookupIsSomeOfMemKeys {T : Type} {k : String} :
    ∀ {l : List (String × T)}, k ∈ l.map Prod.fst → ∃ v, l.lookup k = some v
  | [], h => by simp at h
  | (k2, v2) :: rest, h => by
      by_cases hbk : (k == k2) = true
      · exact ⟨v2, by simp [List.lookup, hbk]⟩
      · have hk2 : k ≠ k2 := fun he => by subst he; simp at hbk
        have hrest : k ∈ rest.map Prod.fst := by
          rcases (by simpa using h : k = k2 ∨ ∃ x, (k, x) ∈ rest) with he | ⟨x, hx⟩
          · exact absurd he hk2
          · exact List.mem_map.mpr ⟨(k, x), hx, rfl⟩
        rcases lookupIsSomeOfMemKeys hrest with ⟨w, hw⟩
        rw [Bool.not_eq_true] at hbk
        exact ⟨w, by simp only [List.lookup, hbk]; exact hw⟩

/-- `lookup` over an append searches the left map first. -/
theorem lookupAppend {T : Type} {k : String} :
    ∀ (x y : List (String × T)),
      (x ++ y).lookup k =
        (match x.lookup k with
         | some v => some v
         | none => y.lookup k)
  | [], y => rfl
  | (k2, v2) :: rest, y => by
      by_cases hbk : (k == k2) = true
      · simp [List.lookup, hbk]
      · rw [Bool.not_eq_true] at hbk
        simp only [List.cons_append, List.lookup, hbk]
        exact lookupAppend rest y

/-- Keys of the first-phase result come from the iterated source map. -/
theorem dvDiffAKeys {T D : Type} {d : T → T → Option (List D)} {dft : T}
    {b : List (String × T)} :
    ∀ {l : List (String × T)} {x}, dvDiffA d dft b l = some x →
      ∀ {k : String} {e}, (k, e) ∈ x → k ∈ l.map Prod.fst
  | [], x, h, k, e, hm => by
      simp only [dvDiffA] at h
      cases h
      simp at hm
  | (k2, v2) :: rest, x, h, k, e, hm => by
      simp only [dvDiffA] at h
      rcases hb2 : b.lookup k2 with _ | o <;> simp only [hb2] at h
      · rcases hd : d v2 dft with _ | dd <;> simp only [hd] at h
        · cases h
        · rcases ht : dvDiffA d dft b rest with _ | tail <;> simp only [ht] at h
          · cases h
          · cases h
            rcases List.mem_cons.mp hm with heq | hmem
            · cases heq; simp
            · exact List.mem_cons_of_mem _ (dvDiffAKeys ht hmem)
      · rcases hd : d v2 o with _ | dd <;> simp only [hd] at h
        · cases h
        · rcases ht : dvDiffA d dft b rest with _ | tail <;> simp only [ht] at h
          · cases h
          · cases h
            by_cases hemp : dd.isEmpty = true
            · rw [if_pos hemp] at hm
              exact List.mem_cons_of_mem _ (dvDiffAKeys ht hm)
            · rw [if_neg hemp] at hm
              rcases List.mem_cons.mp hm with heq | hmem
              · cases heq; simp
              · exact List.mem_cons_of_mem _ (dvDiffAKeys ht hmem)

/-- First-phase entry for a key present in both maps: the record diff,
omitted when empty. -/
theorem dvDiffABoth {T D : Type} {d : T → T → Option (List D)} {dft : T}
    {b : List (String × T)} {k : String} {v o : T} :
    ∀ {l : List (String × T)} {x}, keysNodup l → dvDiffA d dft b l = some x →
      (k, v) ∈ l → b.lookup k = some o →
      ∃ dd, d v o = some dd ∧ x.lookup k = (if dd.isEmpty then none else some dd)
  | [], x, _, h, hm, hb => by simp at hm
  | (k2, v2) :: rest, x, hn, h, hm, hb => by
      have hn2 : (k2 :: rest.map Prod.fst).Nodup := hn
      have hrest : keysNodup rest := (List.nodup_cons.mp hn2).2
      simp only [dvDiffA] at h
      rcases List.mem_cons.mp hm with heq | hmem
      · cases heq
        rw [hb] at h
        simp only [] at h
        rcases hd : d v o with _ | dd <;> simp only [hd] at h
        · cases h
        · rcases ht : dvDiffA d dft b rest with _ | tail <;> simp only [ht] at h
          · cases h
          · cases h
            refine ⟨dd, rfl, ?_⟩
            by_cases hemp : dd.isEmpty = true
            · rw [if_pos hemp, if_pos hemp]
              have hknot : k ∉ rest.map Prod.fst := (List.nodup_cons.mp hn2).1
              refine lookupNoneOfNotMem (fun hin => hknot ?_)
              rcases lookupIsSomeOfMemKeys hin with ⟨e2, he2⟩
              exact dvDiffAKeys ht (memOfLookup he2)
            · rw [if_neg hemp, if_neg hemp]
              simp [List.lookup]
      · have hk : k ≠ k2 := by
          intro hkk; subst hkk
          exact (List.nodup_cons.mp hn2).1 (List.mem_map.mpr ⟨(k, v), hmem, rfl⟩)
        have hbk : (k == k2) = false := by simp [hk]
        rcases hb2 : b.lookup k2 with _ | o2 <;> simp only [hb2] at h
        · rcases hd : d v2 dft with _ | dd2 <;> simp only [hd] at h
          · cases h
          · rcases ht : dvDiffA d dft b rest with _ | tail <;> simp only [ht] at h
            · cases h
            · cases h
              rcases dvDiffABoth hrest ht hmem hb with ⟨dd, hdd, hx⟩
              refine ⟨dd, hdd, ?_⟩
              simp only [List.lookup, hbk]
              exact hx
        · rcases hd : d v2 o2 with _ | dd2 <;> simp only [hd] at h
          · cases h
          · rcases ht : dvDiffA d dft b rest with _ | tail <;> simp only [ht] at h
            · cases h
            · cases h
              rcases dvDiffABoth hrest ht hmem hb with ⟨dd, hdd, hx⟩
              refine ⟨dd, hdd, ?_⟩
              by_cases hemp : dd2.isEmpty = true
              · rw [if_pos hemp]
                exact hx
              · rw [if_neg hemp]
                simp only [List.lookup, hbk]
                exact hx

/-- First-phase entry for a key absent from the target map: the record is
diffed against the canonical default and always inserted. -/
theorem dvDiffARemoved {T D : Type} {d : T → T → Option (List D)} {dft : T}
    {b : List (String × T)} {k : String} {v : T} :
    ∀ {l : List (String × T)} {x}, keysNodup l → dvDiffA d dft b l = some x →
      (k, v) ∈ l → b.lookup k = none →
      ∃ dd, d v dft = some dd ∧ x.lookup k = some dd
  | [], x, _, h, hm, hb => by simp at hm
  | (k2, v2) :: rest, x, hn, h, hm, hb => by
      have hn2 : (k2 :: rest.map Prod.fst).Nodup := hn
      have hrest : keysNodup rest := (List.nodup_cons.mp hn2).2
      simp only [dvDiffA] at h
      rcases List.mem_cons.mp hm with heq | hmem
      · cases heq
        rw [hb] at h
        simp only [] at h
        rcases hd : d v dft with _ | dd <;> simp only [hd] at h
        · cases h
        · rcases ht : dvDiffA d dft b rest with _ | tail <;> simp only [ht] at h
          · cases h
          · cases h
            exact ⟨dd, rfl, by simp [List.lookup]⟩
      · have hk : k ≠ k2 := by
          intro hkk; subst hkk
          exact (List.nodup_cons.mp hn2).1 (List.mem_map.mpr ⟨(k, v), hmem, rfl⟩)
        have hbk : (k == k2) = false := by simp [hk]
        rcases hb2 : b.lookup k2 with _ | o2 <;> simp only [hb2] at h
        · rcases hd : d v2 dft with _ | dd2 <;> simp only [hd] at h
          · cases h
          · rcases ht : dvDiffA d dft b rest with _ | tail <;> simp only [ht] at h
            · cases h
            · cases h
              rcases dvDiffARemoved hrest ht hmem hb with ⟨dd, hdd, hx⟩
              refine ⟨dd, hdd, ?_⟩
              simp only [List.lookup, hbk]
              exact hx
        · rcases hd : d v2 o2 with _ | dd2 <;> simp only [hd] at h
          · cases h
          · rcases ht : dvDiffA d dft b rest with _ | tail <;> simp only [ht] at h
            · cases h
            · cases h
              rcases dvDiffARemoved hrest ht hmem hb with ⟨dd, hdd, hx⟩
              refine ⟨dd, hdd, ?_⟩
              by_cases hemp : dd2.isEmpty = true
              · rw [if_pos hemp]
                exact hx
              · rw [if_neg hemp]
                simp only [List.lookup, hbk]
                exact hx

/-- Every second-phase entry has a key of the target map that is not a
source key. -/
theorem dvDiffBKeys {T D : Type} {d : T → T → Option (List D)} {dft : T}
    {aKeys : List String} :
    ∀ {l : List (String × T)} {y}, dvDiffB d dft aKeys l = some y →
      ∀ {k : String} {e}, (k, e) ∈ y → k ∈ l.map Prod.fst ∧ aKeys.contains k = false
  | [], y, h, k, e, hm => by
      simp only [dvDiffB] at h
      cases h
      simp at hm
  | (k2, v2) :: rest, y, h, k, e, hm => by
      simp only [dvDiffB] at h
      by_cases hc2 : aKeys.contains k2 = true
      · rw [if_pos hc2] at h
        rcases dvDiffBKeys h hm with ⟨hin, hc⟩
        exact ⟨by simp [hin], hc⟩
      · rw [if_neg hc2] at h
        rcases hd : d dft v2 with _ | dd <;> simp only [hd] at h
        · cases h
        · rcases ht : dvDiffB d dft aKeys rest with _ | tail <;> simp only [ht] at h
          · cases h
          · cases h
            rcases List.mem_cons.mp hm with heq | hmem
            · cases heq
              exact ⟨by simp, by simpa using hc2⟩
            · rcases dvDiffBKeys ht hmem with ⟨hin, hc⟩
              exact ⟨by simp [hin], hc⟩

/-- Second-phase entry for a key of the target map outside the source: the
canonical default is diffed against the record, always inserted. -/
theorem dvDiffBAdded {T D : Type} {d : T → T → Option (List D)} {dft : T}
    {aKeys : List String} {k : String} {v : T} :
    ∀ {l : List (String × T)} {y}, keysNodup l → dvDiffB d dft aKeys l = some y →
      (k, v) ∈ l → aKeys.contains k = false →
      ∃ dd, d dft v = some dd ∧ y.lookup k = some dd
  | [], y, _, h, hm, hc => by simp at hm
  | (k2, v2) :: rest, y, hn, h, hm, hc => by
      have hn2 : (k2 :: rest.map Prod.fst).Nodup := hn
      have hrest : keysNodup rest := (List.nodup_cons.mp hn2).2
      simp only [dvDiffB] at h
      rcases List.mem_cons.mp hm with heq | hmem
      · cases heq
        have hcf : ¬ aKeys.contains k = true := by rw [hc]; exact Bool.false_ne_true
        rw [if_neg hcf] at h
        rcases hd : d dft v with _ | dd <;> simp only [hd] at h
        · cases h
        · rcases ht : dvDiffB d dft aKeys rest with _ | tail <;> simp only [ht] at h
          · cases h
          · cases h
            exact ⟨dd, rfl, by simp [List.lookup]⟩
      · have hk : k ≠ k2 := by
          intro hkk; subst hkk
          exact (List.nodup_cons.mp hn2).1 (List.mem_map.mpr ⟨(k, v), hmem, rfl⟩)
        have hbk : (k == k2) = false := by simp [hk]
        by_cases hc2 : aKeys.contains k2 = true
        · rw [if_pos hc2] at h
          exact dvDiffBAdded hrest h hmem hc
        · rw [if_neg hc2] at h
          rcases hd : d dft v2 with _ | dd2 <;> simp only [hd] at h
          · cases h
          · rcases ht : dvDiffB d dft aKeys rest with _ | tail <;> simp only [ht] at h
            · cases h
            · cases h
              rcases dvDiffBAdded hrest ht hmem hc with ⟨dd, hdd, hy⟩
              refine ⟨dd, hdd, ?_⟩
              simp only [List.lookup, hbk]
              exact hy

/-- First phase of the keyed differ maps a reflexive-empty element diff to
an empty result. -/
theorem dvDiffAReflAux {T D : Type} {d : T → T → Option (List D)} {dft : T}
    {b : List (String × T)} :
    ∀ {l : List (String × T)},
      (∀ k v, (k, v) ∈ l → b.lookup k = some v ∧ d v v = some []) →
      dvDiffA d dft b l = some []
  | [], _ => rfl
  | (k2, v2) :: rest, hall => by
      rcases hall k2 v2 (by simp) with ⟨hb, hd⟩
      simp only [dvDiffA, hb, hd]
      rw [dvDiffAReflAux (fun k v hm => hall k v (List.mem_cons_of_mem _ hm))]
      simp

/-- Second phase of the keyed differ skips every key already in the
source. -/
theorem dvDiffBReflAux {T D : Type} {d : T → T → Option (List D)} {dft : T}
    {aKeys : List String} :
    ∀ {l : List (String × T)},
      (∀ k v, (k, v) ∈ l → aKeys.contains k = true) →
      dvDiffB d dft aKeys l = some []
  | [], _ => rfl
  | (k2, v2) :: rest, hall => by
      simp only [dvDiffB, hall k2 v2 (by simp)]
      exact dvDiffBReflAux (fun k v hm => hall k v (List.mem_cons_of_mem _ hm))

/-- `DiffableVec::diff` of a map against itself is empty whenever the
element diff is reflexively empty. -/
theorem dvDiffRefl {T D : Type} {d : T → T → Option (List D)} {dft : T}
    {a : List (String × T)} (ha : keysNodup a)
    (hrefl : ∀ k v, (k, v) ∈ a → d v v = some []) :
    dvDiff d dft a a = some [] := by
  have hA : dvDiffA d dft a a = some [] :=
    dvDiffAReflAux (fun k v hm => ⟨lookupOfMem ha hm, hrefl k v hm⟩)
  have hB : dvDiffB d dft (a.map Prod.fst) a = some [] :=
    dvDiffBReflAux (fun k v hm => by
      rw [List.contains_iff_exists_mem_beq]
      exact ⟨k, List.mem_map.mpr ⟨(k, v), hm, rfl⟩, by simp⟩)
  simp [dvDiff, hA, hB]

/-- A NaN-free literal value compares equal to itself under the source's
`PartialEq`. -/
theorem lvPeqRefl (v : Proto.LiteralValue) (h : v.nanFree = true) : v.peq v = true := by
  cases v <;> simp_all [Proto.LiteralValue.peq, Proto.LiteralValue.nanFree, f64Eq]

/-- A NaN-free literal compares equal to itself. -/
theorem litPeqRefl (l : Proto.Literal) (h : l.nanFree = true) : l.peq l = true := by
  simp only [Proto.Literal.nanFree] at h
  simp [Proto.Literal.peq, lvPeqRefl l.value h]

mutual
/-- A NaN-free prototype type expression compares equal to itself. -/
theorem protoTyPeqRefl : ∀ t : Proto.Ty, t.nanFree = true → t.peq t = true
  | Proto.Ty.simple s, _ => by simp [Proto.Ty.peq]
  | Proto.Ty.complex c, h => by
      simp only [Proto.Ty.nanFree] at h
      simp only [Proto.Ty.peq]
      exact protoComplexPeqRefl c h
termination_by t => t.size
decreasing_by
all_goals simp only [Proto.Ty.size, Proto.ComplexType.size, Proto.Ty.sizeL]
all_goals omega

theorem protoComplexPeqRefl : ∀ c : Proto.ComplexType, c.nanFree = true → c.peq c = true
  | Proto.ComplexType.array v, h => by
      simp only [Proto.ComplexType.nanFree] at h
      simp only [Proto.ComplexType.peq]
      exact protoTyPeqRefl v h
  | Proto.ComplexType.dictionary k v, h => by
      simp only [Proto.ComplexType.nanFree, Bool.and_eq_true] at h
      simp only [Proto.ComplexType.peq, Bool.and_eq_true]
      exact ⟨protoTyPeqRefl k h.1, protoTyPeqRefl v h.2⟩
  | Proto.ComplexType.tuple vs, h => by
      simp only [Proto.ComplexType.nanFree] at h
      simp only [Proto.ComplexType.peq]
      exact protoListPeqRefl vs h
  | Proto.ComplexType.union os f, h => by
      simp only [Proto.ComplexType.nanFree] at h
      simp only [Proto.ComplexType.peq, Bool.and_eq_true]
      exact ⟨protoListPeqRefl os h, by simp⟩
  | Proto.ComplexType.type v d, h => by
      simp only [Proto.ComplexType.nanFree] at h
      simp only [Proto.ComplexType.peq, Bool.and_eq_true]
      exact ⟨protoTyPeqRefl v h, by simp⟩
  | Proto.ComplexType.literal l, h => by
      simp only [Proto.ComplexType.nanFree] at h
      simp only [Proto.ComplexType.peq]
      exact litPeqRefl l h
  | Proto.ComplexType.struct, _ => by simp [Proto.ComplexType.peq]
termination_by c => c.size
decreasing_by
all_goals simp only [Proto.Ty.size, Proto.ComplexType.size, Proto.Ty.sizeL]
all_goals omega

theorem protoListPeqRefl : ∀ l : List Proto.Ty, Proto.Ty.listNanFree l = true →
    Proto.Ty.listPeq l l = true
  | [], _ => by simp [Proto.Ty.listPeq]
  | t :: ts, h => by
      simp only [Proto.Ty.listNanFree, Bool.and_eq_true] at h
      simp only [Proto.Ty.listPeq, Bool.and_eq_true]
      exact ⟨protoTyPeqRefl t h.1, protoListPeqRefl ts h.2⟩
termination_by l => Proto.Ty.sizeL l
decreasing_by
all_goals simp only [Proto.Ty.size, Proto.ComplexType.size, Proto.Ty.sizeL]
all_goals omega
end

/-- A NaN-free property default compares equal to itself. -/
theorem pdPeqRefl (p : Proto.PropertyDefault) (h : p.nanFree = true) : p.peq p = true := by
  cases p with
  | string s => simp [Proto.PropertyDefault.peq]
  | literal l =>
      simp only [Proto.PropertyDefault.nanFree] at h
      simp only [Proto.PropertyDefault.peq]
      exact litPeqRefl l h

theorem optPdPeqRefl (p : Option Proto.PropertyDefault) (h : Proto.optPdNanFree p = true) :
    Proto.optPdPeq p p = true := by
  cases p with
  | none => simp [Proto.optPdPeq]
  | some q =>
      simp only [Proto.optPdNanFree] at h
      simp only [Proto.optPdPeq]
      exact pdPeqRefl q h

theorem cpPeqRefl (c : Proto.CustomProperties) (h : c.nanFree = true) : c.peq c = true := by
  simp only [Proto.CustomProperties.nanFree, Bool.and_eq_true] at h
  simp [Proto.CustomProperties.peq, protoTyPeqRefl _ h.1, protoTyPeqRefl _ h.2]

theorem optCpPeqRefl (c : Option Proto.CustomProperties) (h : Proto.optCpNanFree c = true) :
    Proto.optCpPeq c c = true := by
  cases c with
  | none => simp [Proto.optCpPeq]
  | some q =>
      simp only [Proto.optCpNanFree] at h
      simp only [Proto.optCpPeq]
      exact cpPeqRefl q h

/-- A NaN-free property self-diffs to the empty entry list, under every
policy. -/
theorem protoPropertyDiffRefl (cli : Cli) (p : Proto.Property) (h : p.nanFree = true) :
    Proto.Property.diff cli p p = some [] := by
  simp only [Proto.Property.nanFree, Bool.and_eq_true] at h
  simp [Proto.Property.diff, Proto.typeFieldDiff, protoTyPeqRefl _ h.1, optPdPeqRefl _ h.2]

/-- A NaN-free prototype record with a well-formed properties map
self-diffs to the empty entry list. -/
theorem protoPrototypeDiffRefl (cli : Cli) (p : Proto.Prototype)
    (hk : keysNodup p.properties) (h : p.nanFree = true) :
    Proto.Prototype.diff cli p p = some [] := by
  simp only [Proto.Prototype.nanFree, Bool.and_eq_true] at h
  have hdv : dvDiff (Proto.Property.diff cli) Proto.Property.default_
      p.properties p.properties = some [] :=
    dvDiffRefl hk (fun k v hm =>
      protoPropertyDiffRefl cli v (by
        have := List.all_eq_true.mp h.1 (k, v) hm
        simpa using this))
  simp [Proto.Prototype.diff, hdv, optCpPeqRefl _ h.2]

/-- A NaN-free type concept with a well-formed properties map self-diffs
to the empty entry list. -/
theorem protoTypeConceptDiffRefl (cli : Cli) (t : Proto.TypeConcept)
    (hk : keysNodup t.properties) (h : t.nanFree = true) :
    Proto.TypeConcept.diff cli t t = some [] := by
  simp only [Proto.TypeConcept.nanFree, Bool.and_eq_true] at h
  have hdv : dvDiff (Proto.Property.diff cli) Proto.Property.default_
      t.properties t.properties = some [] :=
    dvDiffRefl hk (fun k v hm =>
      protoPropertyDiffRefl cli v (by
        have := List.all_eq_true.mp h.2 (k, v) hm
        simpa using this))
  simp [Proto.TypeConcept.diff, Proto.typeFieldDiff, protoTyPeqRefl _ h.1, hdv]

mutual
/-- `Define` equality is reflexive (a `Define` holds no floats). -/
theorem defineBeqRefl : ∀ d : Rt.Define, Rt.Define.beq d d = true
  | Rt.Define.mk c v s => by
      simp only [Rt.Define.beq, Bool.and_eq_true]
      exact ⟨⟨by simp, by simp⟩, defineAbeqRefl s⟩
termination_by d => d.size
decreasing_by
all_goals simp only [Rt.Define.size, Rt.Define.sizeA]
all_goals omega

theorem defineAbeqRefl : ∀ l : List (String × Rt.Define), Rt.Define.abeq l l = true
  | [] => by simp [Rt.Define.abeq]
  | (k, d) :: rest => by
      simp only [Rt.Define.abeq, Bool.and_eq_true]
      exact ⟨⟨by simp, defineBeqRefl d⟩, defineAbeqRefl rest⟩
termination_by l => Rt.Define.sizeA l
decreasing_by
all_goals simp only [Rt.Define.size, Rt.Define.sizeA]
all_goals omega
end

/-- A `Define` self-diffs to the empty entry list: every branch of
`Define::diff` is guarded by an equality test. -/
theorem defineDiffRefl (cli : Cli) (x : Rt.Define) : Rt.Define.diff cli x x = [] := by
  cases x with
  | mk c v s => simp [Rt.Define.diff, defineAbeqRefl]

/-- First loop of the `Define` collection differ on a self pair. -/
theorem defineDvDiffAReflAux (cli : Cli) {a : List (String × Rt.Define)} :
    ∀ {l : List (String × Rt.Define)},
      (∀ k v, (k, v) ∈ l → a.lookup k = some v) →
      Rt.Define.dvDiffA cli a l = []
  | [], _ => by simp [Rt.Define.dvDiffA]
  | (k2, v2) :: rest, hall => by
      have hrec := defineDvDiffAReflAux cli (fun k v hm => hall k v (List.mem_cons_of_mem _ hm))
      have hl := hall k2 v2 (by simp)
      simp only [Rt.Define.dvDiffA]
      split
      · rename_i o heq
        rw [hl] at heq
        cases heq
        simp [defineDiffRefl, hrec]
      · rename_i heq
        rw [hl] at heq
        cases heq

/-- Second loop of the `Define` collection differ on a self pair. -/
theorem defineDvDiffBReflAux (cli : Cli) {aKeys : List String} :
    ∀ {l : List (String × Rt.Define)},
      (∀ k v, (k, v) ∈ l → aKeys.contains k = true) →
      Rt.Define.dvDiffB cli aKeys l = []
  | [], _ => by simp [Rt.Define.dvDiffB]
  | (k2, v2) :: rest, hall => by
      simp only [Rt.Define.dvDiffB, hall k2 v2 (by simp), if_true]
      exact defineDvDiffBReflAux cli (fun k v hm => hall k v (List.mem_cons_of_mem _ hm))

/-- The `Define` collection self-diff is empty for well-formed maps. -/
theorem defineDvDiffRefl (cli : Cli) (a : List (String × Rt.Define)) (ha : keysNodup a) :
    Rt.Define.dvDiff cli a a = [] := by
  have hA : Rt.Define.dvDiffA cli a a = [] :=
    defineDvDiffAReflAux cli (fun k v hm => lookupOfMem ha hm)
  have hB : Rt.Define.dvDiffB cli (a.map Prod.fst) a = [] :=
    defineDvDiffBReflAux cli (fun k v hm => by
      rw [List.contains_iff_exists_mem_beq]
      exact ⟨k, List.mem_map.mpr ⟨(k, v), hm, rfl⟩, by simp⟩)
  simp [Rt.Define.dvDiff, hA, hB]

namespace Proto

/-- Well-formedness of the map representation: every keyed collection of
the document (and of its records) has distinct keys, as any
`HashMap`-backed `DiffableVec` does by construction. -/
def PrototypeDoc.wfKeys (doc : PrototypeDoc) : Prop :=
  keysNodup doc.prototypes ∧ keysNodup doc.types ∧ keysNodup doc.defines ∧
    (∀ kv ∈ doc.prototypes, keysNodup kv.2.properties) ∧
    (∀ kv ∈ doc.types, keysNodup kv.2.properties)

/-- True when no type expression of the document contains a NaN float
literal. -/
def PrototypeDoc.nanFree (doc : PrototypeDoc) : Bool :=
  doc.prototypes.all (fun kv => kv.2.nanFree) && doc.types.all (fun kv => kv.2.nanFree)

end Proto

/-- Keyed-differ entry for a key present only in the source map: the
record diffed against the canonical default, always inserted. -/
theorem dvDiffOnlyA {T D : Type} {d : T → T → Option (List D)} {dft : T}
    {a b : List (String × T)} {res : List (String × List D)} {k : String} {v : T}
    (ha : keysNodup a) (h : dvDiff d dft a b = some res)
    (hma : (k, v) ∈ a) (hbl : b.lookup k = none) :
    ∃ l, d v dft = some l ∧ res.lookup k = some l := by
  simp only [dvDiff] at h
  rcases hA : dvDiffA d dft b a with _ | x <;> rw [hA] at h
  · cases h
  · rcases hB : dvDiffB d dft (a.map Prod.fst) b with _ | y <;> rw [hB] at h
    · cases h
    · cases h
      rcases dvDiffARemoved ha hA hma hbl with ⟨l, hdl, hxl⟩
      refine ⟨l, hdl, ?_⟩
      rw [lookupAppend, hxl]

/-- Keyed-differ entry for a key present only in the target map: the
canonical default diffed against the record, always inserted. -/
theorem dvDiffOnlyB {T D : Type} {d : T → T → Option (List D)} {dft : T}
    {a b : List (String × T)} {res : List (String × List D)} {k : String} {w : T}
    (hb : keysNodup b) (h : dvDiff d dft a b = some res)
    (hmb : (k, w) ∈ b) (hal : a.lookup k = none) :
    ∃ l, d dft w = some l ∧ res.lookup k = some l := by
  simp only [dvDiff] at h
  rcases hA : dvDiffA d dft b a with _ | x <;> rw [hA] at h
  · cases h
  · rcases hB : dvDiffB d dft (a.map Prod.fst) b with _ | y <;> rw [hB] at h
    · cases h
    · cases h
      have hxnone : x.lookup k = none := by
        rcases hcase : x.lookup k with _ | e
        · rfl
        · exfalso
          have hka := dvDiffAKeys hA (memOfLookup hcase)
          rcases lookupIsSomeOfMemKeys hka with ⟨v2, hv2⟩
          rw [hal] at hv2
          cases hv2
      have hcont : (a.map Prod.fst).contains k = false := by
        rcases hcc : (a.map Prod.fst).contains k with _ | _
        · rfl
        · exfalso
          have hk2 : k ∈ a.map Prod.fst := by
            rcases List.contains_iff_exists_mem_beq.mp hcc with ⟨k2, hk2, hbeq⟩
            have : k = k2 := by simpa using hbeq
            subst this
            exact hk2
          rcases lookupIsSomeOfMemKeys hk2 with ⟨v2, hv2⟩
          rw [hal] at hv2
          cases hv2
      rcases dvDiffBAdded hb hB hmb hcont with ⟨l, hdl, hyl⟩
      refine ⟨l, hdl, ?_⟩
      rw [lookupAppend, hxnone, hyl]

/-- Keyed-differ entry for a key present in both maps: the record diff of
the two bindings, omitted from the result when empty. -/
theorem dvDiffBoth {T D : Type} {d : T → T → Option (List D)} {dft : T}
    {a b : List (String × T)} {res : List (String × List D)} {k : String} {v w : T}
    (ha : keysNodup a) (hb : keysNodup b) (h : dvDiff d dft a b = some res)
    (hma : (k, v) ∈ a) (hmb : (k, w) ∈ b) :
    ∃ l, d v w = some l ∧ res.lookup k = (if l.isEmpty then none else some l) := by
  simp only [dvDiff] at h
  rcases hA : dvDiffA d dft b a with _ | x <;> rw [hA] at h
  · cases h
  · rcases hB : dvDiffB d dft (a.map Prod.fst) b with _ | y <;> rw [hB] at h
    · cases h
    · cases h
      have hbw : b.lookup k = some w := lookupOfMem hb hmb
      rcases dvDiffABoth ha hA hma hbw with ⟨l, hdl, hxl⟩
      refine ⟨l, hdl, ?_⟩
      have hynone : y.lookup k = none := by
        rcases hcase : y.lookup k with _ | e
        · rfl
        · exfalso
          rcases dvDiffBKeys hB (memOfLookup hcase) with ⟨_, hc⟩
          have hk2 : (a.map Prod.fst).contains k = true := by
            rw [List.contains_iff_exists_mem_beq]
            exact ⟨k, List.mem_map.mpr ⟨(k, v), hma, rfl⟩, by simp⟩
          rw [hc] at hk2
          cases hk2
      by_cases hemp : l.isEmpty = true
      · rw [if_pos hemp]
        rw [if_pos hemp] at hxl
        rw [lookupAppend, hxl, hynone]
      · rw [if_neg hemp]
        rw [if_neg hemp] at hxl
        rw [lookupAppend, hxl]

/-- Policy with no flags set (the CLI default). -/
def cliNone : Cli := { descriptions := false, examples := false, full := false }

/-- Policy with only the descriptions flag set. -/
def cliDesc : Cli := { descriptions := true, examples := false, full := false }

/-- Policy with every flag set. -/
def cliAll : Cli := { descriptions := true, examples := true, full := true }

/-- Claim C2: for all keyed collections A and B (with the HashMap
distinct-keys invariant), the keyed-collection differ maps a key present
only in A to `diff(A[key], default)`, a key present only in B to
`diff(default, B[key])`, and a key present in both to
`diff(A[key], B[key])`, the latter omitted from the result entirely when
that diff is empty. -/
theorem dvDiffSpec {T D : Type} (d : T → T → Option (List D)) (dft : T)
    (a b : List (String × T)) (res : List (String × List D))
    (ha : keysNodup a) (hb : keysNodup b)
    (h : dvDiff d dft a b = some res) (k : String) :
    (∀ v, (k, v) ∈ a → b.lookup k = none →
        ∃ l, d v dft = some l ∧ res.lookup k = some l) ∧
    (∀ w, (k, w) ∈ b → a.lookup k = none →
        ∃ l, d dft w = some l ∧ res.lookup k = some l) ∧
    (∀ v w, (k, v) ∈ a → (k, w) ∈ b →
        ∃ l, d v w = some l ∧ res.lookup k = (if l.isEmpty then none else some l)) :=
  ⟨fun v hma hbl => dvDiffOnlyA ha h hma hbl,
   fun w hmb hal => dvDiffOnlyB hb h hmb hal,
   fun v w hma hmb => dvDiffBoth ha hb h hma hmb⟩

/-- Witness for C2 at a concrete instance: source map with keys `gone` and
`same`, target map with keys `same` and `new`, runtime `Common` elements,
default policy. -/
theorem dvDiffSpecWitness :
    ∃ res, dvDiff (fun x y => some (Rt.Common.diff cliNone x y)) Rt.Common.default
        [(("gone"), { name := ("gone"), order := 0, description := ("") : Rt.Common }),
         (("same"), { name := ("same"), order := 0, description := ("") : Rt.Common })]
        [(("same"), { name := ("same"), order := 0, description := ("") : Rt.Common }),
         (("new"), { name := ("new2"), order := 0, description := ("") : Rt.Common })] =
        some res ∧
      res.lookup ("gone") =
        some [Rt.CommonDiff.name ("")] ∧
      res.lookup ("new") = some [Rt.CommonDiff.name ("new2")] ∧
      res.lookup ("same") = none := by
  refine ⟨[(("gone"), [Rt.CommonDiff.name ("")]), (("new"), [Rt.CommonDiff.name ("new2")])],
    ?_, ?_, ?_, ?_⟩
  · have h := (dvDiffSpec (fun x y => some (Rt.Common.diff cliNone x y)) Rt.Common.default
      [(("gone"), { name := ("gone"), order := 0, description := ("") : Rt.Common }),
       (("same"), { name := ("same"), order := 0, description := ("") : Rt.Common })]
      [(("same"), { name := ("same"), order := 0, description := ("") : Rt.Common }),
       (("new"), { name := ("new2"), order := 0, description := ("") : Rt.Common })]
      [(("gone"), [Rt.CommonDiff.name ("")]), (("new"), [Rt.CommonDiff.name ("new2")])]
      (by unfold keysNodup; decide) (by unfold keysNodup; decide) (by decide) ("gone")).1
    decide
  · decide
  · decide
  · decide

/-- Claim C5 counterexample: a key present only in the source map whose
record equals the canonical default produces an entry with an *empty*
change list (the removal insertion at `src/format.rs` line 75 is
unconditional), refuting "every entry present in the mapping has a
non-empty change-entry list". -/
theorem dvDiffEmptyEntryCounterexample :
    dvDiff (fun x y => some (Rt.Common.diff cliNone x y)) Rt.Common.default
        [(("") , Rt.Common.default)] [] = some [(("") , [])] := by
  decide

/-- Claim C5 (amended): an entry whose key is present in both input maps
always carries a non-empty change-entry list; entries for keys present in
only one map are inserted unconditionally and may be empty. -/
theorem dvDiffBothKeysNonEmpty {T D : Type} (d : T → T → Option (List D)) (dft : T)
    (a b : List (String × T)) (res : List (String × List D))
    (ha : keysNodup a) (hb : keysNodup b)
    (h : dvDiff d dft a b = some res) (k : String) (e : List D)
    (hres : res.lookup k = some e)
    (hka : k ∈ a.map Prod.fst) (hkb : k ∈ b.map Prod.fst) : e ≠ [] := by
  rcases List.mem_map.mp hka with ⟨⟨k1, v⟩, hmv, hfst⟩
  simp only at hfst
  subst hfst
  rcases List.mem_map.mp hkb with ⟨⟨k2, w⟩, hmw, hfst2⟩
  simp only at hfst2
  subst hfst2
  rcases dvDiffBoth ha hb h hmv hmw with ⟨l, hdl, hlook⟩
  by_cases hemp : l.isEmpty = true
  · rw [if_pos hemp] at hlook
    rw [hres] at hlook
    cases hlook
  · rw [if_neg hemp] at hlook
    rw [hres] at hlook
    injection hlook with hel
    subst hel
    simpa using hemp

/-- Witness for the amended C5 at a concrete instance: the shared key
`k` changes its record, so its entry list is non-empty. -/
theorem dvDiffBothKeysNonEmptyWitness :
    ([Rt.CommonDiff.name ("k2")] : List Rt.CommonDiff) ≠ [] := by
  refine dvDiffBothKeysNonEmpty (fun x y => some (Rt.Common.diff cliNone x y))
    Rt.Common.default
    [(("k"), { name := ("k"), order := 0, description := ("") : Rt.Common })]
    [(("k"), { name := ("k2"), order := 0, description := ("") : Rt.Common })]
    [(("k"), [Rt.CommonDiff.name ("k2")])]
    (by unfold keysNodup; decide) (by unfold keysNodup; decide) (by decide) ("k")
    [Rt.CommonDiff.name ("k2")]
    (by decide) (by decide) (by decide)

/-- Claim C8: appending one element to an otherwise identical sequence
yields per-index entry lists that are empty everywhere except the final
index, whose entry is the diff of the canonical default against the new
element (addition semantics); in particular the result has length
`|xs| + 1` and any non-empty entry can only be the final one. -/
theorem vecDiffAppend {T D : Type} (d : T → T → Option (List D)) (dft : T)
    (xs : List T) (e : T) (l : List D)
    (hrefl : ∀ x ∈ xs, d x x = some []) (he : d dft e = some l) :
    vecDiff d dft xs (xs ++ [e]) = some (List.replicate xs.length [] ++ [l]) ∧
      (List.replicate xs.length [] ++ [l]).length = xs.length + 1 := by
  constructor
  · induction xs with
    | nil => simp [vecDiff, he]
    | cons v vs ih =>
        have hv : d v v = some [] := hrefl v (by simp)
        have ih2 := ih (fun x hx => hrefl x (by simp [hx]))
        simp only [List.cons_append, vecDiff, hv, ih2, List.length_cons, List.replicate_succ]
  · simp

/-- Witness for C8 at a concrete instance: appending a changed element to
a one-element runtime `Common` sequence. -/
theorem vecDiffAppendWitness :
    vecDiff (fun x y => some (Rt.Common.diff cliNone x y)) Rt.Common.default
        [{ name := ("a"), order := 0, description := ("") : Rt.Common }]
        ([{ name := ("a"), order := 0, description := ("") : Rt.Common }] ++
          [{ name := ("b"), order := 0, description := ("") : Rt.Common }]) =
      some (List.replicate 1 [] ++ [[Rt.CommonDiff.name ("b")]]) := by
  exact (vecDiffAppend (fun x y => some (Rt.Common.diff cliNone x y)) Rt.Common.default
    [{ name := ("a"), order := 0, description := ("") : Rt.Common }]
    { name := ("b"), order := 0, description := ("") : Rt.Common }
    [Rt.CommonDiff.name ("b")]
    (by decide) (by decide)).1

/-- Claim C10: in both schemas the type-expression differ returns a list
of length at most one, which is the invariant the record diff rules rely
on when they read only element `[0]`. -/
theorem typeDiffLenLeOne :
    (∀ (cli : Cli) (t u : Proto.Ty) (l : List Proto.TypeDiff),
      Proto.Ty.diff cli t u = some l → l.length ≤ 1) ∧
    (∀ (cli : Cli) (t u : Rt.Ty) (l : List Rt.TypeDiff),
      Rt.Ty.diff cli t u = some l → l.length ≤ 1) := by
  constructor
  · intro cli t u l h
    cases t <;> cases u <;> simp only [Proto.Ty.diff] at h
    · cases h
      split <;> simp
    · rcases hd : Proto.ComplexType.diff cli Proto.ComplexType.default _ with _ | d <;>
        rw [hd] at h
      · cases h
      · cases h
        simp
    · cases h
      simp
    · rcases hd : Proto.ComplexType.diff cli _ _ with _ | d <;> rw [hd] at h
      · cases h
      · cases h
        split <;> simp
  · intro cli t u l h
    cases t <;> cases u <;> simp only [Rt.Ty.diff] at h
    · cases h
      split <;> simp
    · rcases hd : Rt.ComplexType.diff cli Rt.ComplexType.unknown _ with _ | d <;>
        rw [hd] at h
      · cases h
      · cases h
        simp
    · cases h
      simp
    · rename_i c uc
      by_cases hpeq : (c.peq uc) = true
      · rw [hpeq] at h
        simp only [Bool.not_true] at h
        simp only [Bool.false_eq_true, if_false] at h
        cases h
        simp
      · rw [Bool.not_eq_true] at hpeq
        rw [hpeq] at h
        simp only [Bool.not_false, if_true] at h
        rcases hd : Rt.ComplexType.diff cli c uc with _ | d <;> rw [hd] at h
        · cases h
        · cases h
          split <;> simp

/-- Witness for C10 at a concrete instance: a simple-to-simple change in
each schema. -/
theorem typeDiffLenLeOneWitness :
    ([Proto.TypeDiff.simple ("y")] : List Proto.TypeDiff).length ≤ 1 ∧
    ([Rt.TypeDiff.simple ("y")] : List Rt.TypeDiff).length ≤ 1 := by
  constructor
  · exact typeDiffLenLeOne.1 cliAll (Proto.Ty.simple ("x")) (Proto.Ty.simple ("y")) _
      (by simp [Proto.Ty.diff, cliAll])
  · exact typeDiffLenLeOne.2 cliAll (Rt.Ty.simple ("x")) (Rt.Ty.simple ("y")) _
      (by simp [Rt.Ty.diff, cliAll])

/-- Claim C1 (amended): diffing a prototype document against an identical
copy of itself yields an entirely empty diff tree, for every policy
configuration, provided the document's keyed collections carry the
`HashMap` distinct-keys invariant and the document contains no NaN float
literal (a NaN literal compares unequal to itself under the source's
float equality, making the self-diff non-empty). -/
theorem selfDiffEmpty (cli : Cli) (doc : Proto.PrototypeDoc)
    (hw : doc.wfKeys) (hn : doc.nanFree = true) :
    Proto.PrototypeDoc.diff cli doc doc =
      some { prototypes := [], types := [], defines := [] } := by
  obtain ⟨hkp, hkt, hkd, hpp, hpt⟩ := hw
  simp only [Proto.PrototypeDoc.nanFree, Bool.and_eq_true] at hn
  have h1 : dvDiff (Proto.Prototype.diff cli) Proto.Prototype.default_
      doc.prototypes doc.prototypes = some [] :=
    dvDiffRefl hkp (fun k v hm =>
      protoPrototypeDiffRefl cli v (hpp (k, v) hm)
        (by simpa using List.all_eq_true.mp hn.1 (k, v) hm))
  have h2 : dvDiff (Proto.TypeConcept.diff cli) Proto.TypeConcept.default_
      doc.types doc.types = some [] :=
    dvDiffRefl hkt (fun k v hm =>
      protoTypeConceptDiffRefl cli v (hpt (k, v) hm)
        (by simpa using List.all_eq_true.mp hn.2 (k, v) hm))
  have h3 := defineDvDiffRefl cli doc.defines hkd
  simp [Proto.PrototypeDoc.diff, h1, h2, h3]

/-- A sample well-formed, NaN-free document used as the C1 witness: one
prototype holding one property, one type concept, one define. -/
def propW : Proto.Property :=
  { common := { common := Proto.Common.default, name := ("p"), order := 1 },
    alt_name := (""), override_ := false, type_ := Proto.Ty.simple ("string"),
    optional := true, default := none }

def protoW : Proto.Prototype :=
  { common := { common := Proto.Common.default, name := ("P"), order := 0 },
    visibility := [], parent := (""), abstract_ := false, typename := (""),
    instance_limit := (""), deprecated := false, properties := [(("p"), propW)],
    custom_properties := none }

def tcW : Proto.TypeConcept :=
  { common := { common := Proto.Common.default, name := ("T"), order := 2 },
    parent := (""), abstract_ := false, inline := false,
    type_ := Proto.Ty.complex (Proto.ComplexType.array (Proto.Ty.simple ("double"))),
    properties := [] }

def docW : Proto.PrototypeDoc :=
  { common := FormatCommon.default, prototypes := [(("P"), protoW)],
    types := [(("T"), tcW)], defines := [(("D"), Rt.Define.mk Rt.BasicMember.default [] [])] }

/-- Witness for the amended C1 at the sample document, full policy. -/
theorem selfDiffEmptyWitness :
    Proto.PrototypeDoc.diff cliAll docW docW =
      some { prototypes := [], types := [], defines := [] } := by
  refine selfDiffEmpty cliAll docW ⟨?_, ?_, ?_, ?_, ?_⟩ ?_
  · unfold keysNodup docW
    simp
  · unfold keysNodup docW
    simp
  · unfold keysNodup docW
    simp
  · intro kv hkv
    simp only [docW, List.mem_singleton] at hkv
    subst hkv
    unfold keysNodup protoW
    simp
  · intro kv hkv
    simp only [docW, List.mem_singleton] at hkv
    subst hkv
    unfold keysNodup tcW
    simp
  · simp [docW, Proto.PrototypeDoc.nanFree, protoW, tcW, propW, Proto.Prototype.nanFree,
      Proto.TypeConcept.nanFree, Proto.Property.nanFree, Proto.Ty.nanFree,
      Proto.ComplexType.nanFree, Proto.optPdNanFree, Proto.optCpNanFree]

/-- The bit pattern of a quiet `f64` NaN. -/
def nanBits : Nat := 0x7FF8000000000000

/-- A type concept whose type expression holds a NaN float literal. -/
def tcNan : Proto.TypeConcept :=
  { common := Proto.NamedCommon.default, parent := (""), abstract_ := false, inline := false,
    type_ := Proto.Ty.complex (Proto.ComplexType.literal
      { value := Proto.LiteralValue.float nanBits, description := ("") }),
    properties := [] }

/-- A document containing `tcNan` as its only node. -/
def docNan : Proto.PrototypeDoc :=
  { common := FormatCommon.default, prototypes := [], types := [(("T"), tcNan)], defines := [] }

/-- Claim C1 counterexample: a well-formed document holding a NaN float
literal self-diffs to a NON-empty diff tree (under the default policy):
the NaN literal compares unequal to itself under `f64` `PartialEq`, so
the literal arm of the type-expression differ emits a value entry.  This
refutes the claim as stated for arbitrary documents. -/
theorem selfDiffNanCounterexample :
    Proto.PrototypeDoc.wfKeys docNan ∧
    Proto.PrototypeDoc.diff cliNone docNan docNan =
      some { prototypes := [],
             types := [(("T"), [Proto.TypeConceptDiff.type (Proto.TypeDiff.complex
               [Proto.ComplexTypeDiff.literal (Proto.LiteralValue.float nanBits)])])],
             defines := [] } ∧
    Proto.PrototypeDoc.diff cliNone docNan docNan ≠
      some { prototypes := [], types := [], defines := [] } := by
  have hnan : f64Eq nanBits nanBits = false := by decide
  have heval : Proto.PrototypeDoc.diff cliNone docNan docNan =
      some { prototypes := [],
             types := [(("T"), [Proto.TypeConceptDiff.type (Proto.TypeDiff.complex
               [Proto.ComplexTypeDiff.literal (Proto.LiteralValue.float nanBits)])])],
             defines := [] } := by
    simp [Proto.PrototypeDoc.diff, docNan, tcNan, dvDiff, dvDiffA, dvDiffB,
      Proto.TypeConcept.diff, Proto.typeFieldDiff, Proto.Ty.diff, Proto.ComplexType.diff,
      Proto.Ty.peq, Proto.ComplexType.peq, Proto.Literal.peq, Proto.LiteralValue.peq,
      Proto.Literal.diff, Proto.litEntries, Proto.TypeDiff.skip, hnan, List.lookup,
      Rt.Define.dvDiff, Rt.Define.dvDiffA, Rt.Define.dvDiffB, cliNone]
  refine ⟨⟨?_, ?_, ?_, ?_, ?_⟩, heval, ?_⟩
  · unfold keysNodup docNan
    simp
  · unfold keysNodup docNan
    simp
  · unfold keysNodup docNan
    simp
  · intro kv hkv
    simp [docNan] at hkv
  · intro kv hkv
    simp only [docNan, List.mem_singleton] at hkv
    subst hkv
    unfold keysNodup tcNan
    simp
  · rw [heval]
    intro hcontra
    simp at hcontra

/-- Source record of the C9 scenario, runtime schema. -/
def rtSrcC9 : Rt.Common := { name := ("foo"), order := 1, description := ("a") }

/-- Target record of the C9 scenario, runtime schema. -/
def rtTgtC9 : Rt.Common := { name := ("foo"), order := 2, description := ("b") }

/-- Source record of the C9 scenario, prototype schema. -/
def ncSrcC9 : Proto.NamedCommon :=
  { common := { Proto.Common.default with description := ("a") }, name := ("foo"), order := 1 }

/-- Target record of the C9 scenario, prototype schema. -/
def ncTgtC9 : Proto.NamedCommon :=
  { common := { Proto.Common.default with description := ("b") }, name := ("foo"), order := 2 }

/-- Claim C9: for the source entity `{name: "foo", order: 1, description:
"a"}` against the target `{name: "foo", order: 2, description: "b"}`, the
record diff under no policy flags is empty, and under only the
descriptions flag it is exactly `[Description ("b")]` — in both the
runtime (`Common`) and prototype (`NamedCommon`) schemas. -/
theorem policyScenarioConcrete :
    Rt.Common.diff cliNone rtSrcC9 rtTgtC9 = [] ∧
    Rt.Common.diff cliDesc rtSrcC9 rtTgtC9 = [Rt.CommonDiff.description ("b")] ∧
    Proto.NamedCommon.diff cliNone ncSrcC9 ncTgtC9 = [] ∧
    Proto.NamedCommon.diff cliDesc ncSrcC9 ncTgtC9 =
      [Proto.NamedCommonDiff.description ("b")] := by
  decide

/-- Claim C6 counterexample: with the full flag OFF but the descriptions
flag on, a lists-only difference between two runtime basic members DOES
produce a change entry — the runtime schema gates `lists` by
`descriptions || full`, not by `full` alone.  This refutes the claim's
"only under full" characterisation of auxiliary lists. -/
theorem fullDetailGatingCounterexample :
    cliDesc.full = false ∧
    Rt.BasicMember.diff cliDesc Rt.BasicMember.default
      { Rt.BasicMember.default with lists := [("x")] } =
      [Rt.BasicMemberDiff.lists [("x")]] := by
  decide

/-- Claim C6 (amended): exact gating of the full-detail fields, for every
policy configuration, stated on pairs differing in that field only.  In
the prototype schema, lists, images and declared order are gated by the
full flag, as claimed.  In the runtime schema, images and declared order
are gated by the full flag, but auxiliary lists are gated by
`descriptions || full`, so a lists-only difference surfaces under the
descriptions flag even with full off. -/
theorem fullDetailGating (cli : Cli) (l1 l2 : List String) (i1 i2 : List Image) (o1 o2 : Int) :
    (Proto.Common.diff cli { Proto.Common.default with lists := l1 }
        { Proto.Common.default with lists := l2 } =
      if cli.full && (l1 != l2) then [Proto.CommonDiff.lists l2] else []) ∧
    (Proto.Common.diff cli { Proto.Common.default with images := i1 }
        { Proto.Common.default with images := i2 } =
      if cli.full && (i1 != i2) then [Proto.CommonDiff.images i2] else []) ∧
    (Proto.NamedCommon.diff cli { Proto.NamedCommon.default with order := o1 }
        { Proto.NamedCommon.default with order := o2 } =
      if cli.full && (o1 != o2) then [Proto.NamedCommonDiff.order o2] else []) ∧
    (Rt.Common.diff cli { Rt.Common.default with order := o1 }
        { Rt.Common.default with order := o2 } =
      if (o1 != o2) && cli.full then [Rt.CommonDiff.order o2] else []) ∧
    (Rt.BasicMember.diff cli { Rt.BasicMember.default with lists := l1 }
        { Rt.BasicMember.default with lists := l2 } =
      if (l1 != l2) && (cli.descriptions || cli.full) then
        [Rt.BasicMemberDiff.lists l2]
      else []) ∧
    (Rt.BasicMember.diff cli { Rt.BasicMember.default with images := i1 }
        { Rt.BasicMember.default with images := i2 } =
      if (i1 != i2) && cli.full then [Rt.BasicMemberDiff.images i2] else []) := by
  obtain ⟨d, e, f⟩ := cli
  refine ⟨?_, ?_, ?_, ?_, ?_, ?_⟩ <;>
    cases d <;> cases e <;> cases f <;>
      simp [Proto.Common.diff, Proto.NamedCommon.diff, Rt.Common.diff, Rt.BasicMember.diff,
        Proto.Common.default, Proto.NamedCommon.default, Rt.Common.default,
        Rt.BasicMember.default, Proto.NamedCommonDiff.ofCommon, Rt.BasicMemberDiff.ofCommon]

/-- A property whose type is the simple scalar `"a"`. -/
def propC7src : Proto.Property :=
  { common := Proto.NamedCommon.default, alt_name := (""), override_ := false,
    type_ := Proto.Ty.simple ("a"), optional := false, default := none }

/-- The same property with its type changed to the complex `Struct` node. -/
def propC7tgt : Proto.Property :=
  { propC7src with type_ := Proto.Ty.complex Proto.ComplexType.struct }

/-- Claim C7 counterexample: a prototype type expression changing from the
Simple scalar `"a"` to the Complex `Struct` node diffs (even under the
full policy) to the single entry `Complex []` with an EMPTY payload; that
entry's `skip` test is true, so the enclosing record (here a `Property`
differing only in its type) suppresses it and reports no change at all.
This refutes both the "non-empty diff" and the "never suppressed" parts
of the claim. -/
theorem simpleComplexSuppressionCounterexample :
    Proto.Ty.diff cliAll (Proto.Ty.simple ("a")) (Proto.Ty.complex Proto.ComplexType.struct) =
      some [Proto.TypeDiff.complex []] ∧
    Proto.TypeDiff.skip (Proto.TypeDiff.complex []) = true ∧
    Proto.Property.diff cliAll propC7src propC7tgt = some [] := by
  have h1 : Proto.Ty.diff cliAll (Proto.Ty.simple ("a"))
      (Proto.Ty.complex Proto.ComplexType.struct) = some [Proto.TypeDiff.complex []] := by
    simp [Proto.Ty.diff, Proto.ComplexType.diff, Proto.ComplexType.default]
  refine ⟨h1, rfl, ?_⟩
  simp [Proto.Property.diff, propC7src, propC7tgt, Proto.typeFieldDiff, Proto.Ty.peq, h1,
    Proto.TypeDiff.skip, Proto.optPdPeq]

/-- Claim C7 (amended): a Simple/Complex variant change is handled
asymmetrically.  A Complex source replaced by a Simple target is emitted
wholesale as `[Simple s]`, which is never skipped.  A Simple source
replaced by a Complex target is emitted as `[Complex d]` where `d` diffs
the schema's default complex node (prototype `Struct`, runtime `Unknown`)
against the target; that entry IS skipped by enclosing record rules
exactly when `d` is empty. -/
theorem simpleComplexReplacement (cli : Cli) (s : String)
    (c : Proto.ComplexType) (d : List Proto.ComplexTypeDiff)
    (rc : Rt.ComplexType) (rd : List Rt.ComplexTypeDiff)
    (hc : Proto.ComplexType.diff cli Proto.ComplexType.default c = some d)
    (hrc : Rt.ComplexType.diff cli Rt.ComplexType.unknown rc = some rd) :
    Proto.Ty.diff cli (Proto.Ty.simple s) (Proto.Ty.complex c) =
      some [Proto.TypeDiff.complex d] ∧
    Proto.Ty.diff cli (Proto.Ty.complex c) (Proto.Ty.simple s) =
      some [Proto.TypeDiff.simple s] ∧
    (Proto.TypeDiff.skip (Proto.TypeDiff.complex d) = true ↔ d = []) ∧
    Proto.TypeDiff.skip (Proto.TypeDiff.simple s) = false ∧
    Rt.Ty.diff cli (Rt.Ty.simple s) (Rt.Ty.complex rc) = some [Rt.TypeDiff.complex rd] ∧
    Rt.Ty.diff cli (Rt.Ty.complex rc) (Rt.Ty.simple s) = some [Rt.TypeDiff.simple s] ∧
    (Rt.TypeDiff.skip (Rt.TypeDiff.complex rd) = true ↔ rd = []) := by
  refine ⟨?_, ?_, ?_, rfl, ?_, ?_, ?_⟩
  · simp [Proto.Ty.diff, hc]
  · simp [Proto.Ty.diff]
  · simp [Proto.TypeDiff.skip, List.isEmpty_iff]
  · simp [Rt.Ty.diff, hrc]
  · simp [Rt.Ty.diff]
  · simp [Rt.TypeDiff.skip, List.isEmpty_iff]

/-- Diffing the prototype default complex node against an `Array` node
yields the variant marker and the array's value, diffed from the default
type expression. -/
theorem protoDefaultArrayEval :
    Proto.ComplexType.diff cliNone Proto.ComplexType.default
        (Proto.ComplexType.array (Proto.Ty.simple ("x"))) =
      some [Proto.ComplexTypeDiff.complexType ("array"),
            Proto.ComplexTypeDiff.value (Proto.TypeDiff.simple ("x"))] := by
  simp [Proto.ComplexType.diff, Proto.Ty.diff, Proto.Ty.default, Proto.ComplexType.default]

set_option maxHeartbeats 4000000 in
/-- Diffing the runtime `Unknown` node against an `Array` node yields the
variant marker and the array's value, diffed from the default type
expression. -/
theorem rtUnknownArrayEval :
    Rt.ComplexType.diff cliNone Rt.ComplexType.unknown
        (Rt.ComplexType.array (Rt.Ty.simple ("x"))) =
      some [Rt.ComplexTypeDiff.complexType ("array"),
            Rt.ComplexTypeDiff.value (Rt.TypeDiff.simple ("x"))] := by
  simp [Rt.ComplexType.diff, Rt.Ty.diff, Rt.Ty.default]

/-- Witness for the amended C7 at a concrete simple-to-array change in
both schemas. -/
theorem simpleComplexReplacementWitness :
    Proto.Ty.diff cliNone (Proto.Ty.simple ("a"))
        (Proto.Ty.complex (Proto.ComplexType.array (Proto.Ty.simple ("x")))) =
      some [Proto.TypeDiff.complex [Proto.ComplexTypeDiff.complexType ("array"),
        Proto.ComplexTypeDiff.value (Proto.TypeDiff.simple ("x"))]] ∧
    Rt.Ty.diff cliNone (Rt.Ty.simple ("a"))
        (Rt.Ty.complex (Rt.ComplexType.array (Rt.Ty.simple ("x")))) =
      some [Rt.TypeDiff.complex [Rt.ComplexTypeDiff.complexType ("array"),
        Rt.ComplexTypeDiff.value (Rt.TypeDiff.simple ("x"))]] :=
  ⟨(simpleComplexReplacement cliNone ("a") _ _ _ _
      protoDefaultArrayEval rtUnknownArrayEval).1,
   (simpleComplexReplacement cliNone ("a") _ _ _ _
      protoDefaultArrayEval rtUnknownArrayEval).2.2.2.2.1⟩

/-- The prototype catch-all dictionary arm panics (`none`) when the new
dictionary's key equals the default type expression: `Type::default()
.diff(key)` is then empty and the source indexes it at `[0]`. -/
theorem protoDictPanicAux :
    Proto.ComplexType.diff cliNone (Proto.ComplexType.array (Proto.Ty.simple ("x")))
        (Proto.ComplexType.dictionary (Proto.Ty.simple ("")) (Proto.Ty.simple ("y"))) =
      none := by
  simp [Proto.ComplexType.diff, Proto.Ty.diff, Proto.Ty.default]

/-- The prototype catch-all dictionary arm, good case: non-default key and
value produce the variant marker plus key and value addition entries. -/
theorem protoDictGoodAux :
    Proto.ComplexType.diff cliNone (Proto.ComplexType.array (Proto.Ty.simple ("x")))
        (Proto.ComplexType.dictionary (Proto.Ty.simple ("K")) (Proto.Ty.simple ("V"))) =
      some [Proto.ComplexTypeDiff.complexType ("dictionary"),
            Proto.ComplexTypeDiff.key (Proto.TypeDiff.simple ("K")),
            Proto.ComplexTypeDiff.value (Proto.TypeDiff.simple ("V"))] := by
  simp [Proto.ComplexType.diff, Proto.Ty.diff, Proto.Ty.default]

set_option maxHeartbeats 4000000 in
/-- Runtime analogue of `protoDictPanicAux`. -/
theorem rtDictPanicAux :
    Rt.ComplexType.diff cliNone (Rt.ComplexType.array (Rt.Ty.simple ("x")))
        (Rt.ComplexType.dictionary (Rt.Ty.simple ("")) (Rt.Ty.simple ("y"))) = none := by
  simp [Rt.ComplexType.diff, Rt.Ty.diff, Rt.Ty.default]

set_option maxHeartbeats 4000000 in
/-- Runtime analogue of `protoDictGoodAux`. -/
theorem rtDictGoodAux :
    Rt.ComplexType.diff cliNone (Rt.ComplexType.array (Rt.Ty.simple ("x")))
        (Rt.ComplexType.dictionary (Rt.Ty.simple ("K")) (Rt.Ty.simple ("V"))) =
      some [Rt.ComplexTypeDiff.complexType ("dictionary"),
            Rt.ComplexTypeDiff.key (Rt.TypeDiff.simple ("K")),
            Rt.ComplexTypeDiff.value (Rt.TypeDiff.simple ("V"))] := by
  simp [Rt.ComplexType.diff, Rt.Ty.diff, Rt.Ty.default]

/-- Claim C3: for an Array-to-Dictionary variant change with key `"K"` and
value `"V"`, both schemas emit exactly the variant marker plus key and
value addition entries, as claimed.  But for key `Simple ""` — equal to
the canonical default type expression — the claimed addition entry's diff
is empty and the code indexes it at `[0]`, panicking (`none`) instead of
emitting the claimed entries. -/
theorem variantChangeArrayDictionaryEval :
    Proto.ComplexType.diff cliNone (Proto.ComplexType.array (Proto.Ty.simple ("x")))
        (Proto.ComplexType.dictionary (Proto.Ty.simple ("K")) (Proto.Ty.simple ("V"))) =
      some [Proto.ComplexTypeDiff.complexType ("dictionary"),
            Proto.ComplexTypeDiff.key (Proto.TypeDiff.simple ("K")),
            Proto.ComplexTypeDiff.value (Proto.TypeDiff.simple ("V"))] ∧
    Rt.ComplexType.diff cliNone (Rt.ComplexType.array (Rt.Ty.simple ("x")))
        (Rt.ComplexType.dictionary (Rt.Ty.simple ("K")) (Rt.Ty.simple ("V"))) =
      some [Rt.ComplexTypeDiff.complexType ("dictionary"),
            Rt.ComplexTypeDiff.key (Rt.TypeDiff.simple ("K")),
            Rt.ComplexTypeDiff.value (Rt.TypeDiff.simple ("V"))] ∧
    Proto.ComplexType.diff cliNone (Proto.ComplexType.array (Proto.Ty.simple ("x")))
        (Proto.ComplexType.dictionary (Proto.Ty.simple ("")) (Proto.Ty.simple ("y"))) =
      none ∧
    Rt.ComplexType.diff cliNone (Rt.ComplexType.array (Rt.Ty.simple ("x")))
        (Rt.ComplexType.dictionary (Rt.Ty.simple ("")) (Rt.Ty.simple ("y"))) = none :=
  ⟨protoDictGoodAux, rtDictGoodAux, protoDictPanicAux, rtDictPanicAux⟩

/-- A type concept whose type is an array of `Simple "x"`. -/
def tcC4src : Proto.TypeConcept :=
  { Proto.TypeConcept.default_ with
    type_ := Proto.Ty.complex (Proto.ComplexType.array (Proto.Ty.simple ("x"))) }

/-- The same type concept with its type changed to a dictionary whose key
is the default type expression `Simple ""`. -/
def tcC4tgt : Proto.TypeConcept :=
  { Proto.TypeConcept.default_ with
    type_ := Proto.Ty.complex
      (Proto.ComplexType.dictionary (Proto.Ty.simple ("")) (Proto.Ty.simple ("y"))) }

/-- Claim C4: the engine is NOT panic-free.  A well-formed pair whose type
expressions change from `Array("x")` to `Dictionary("", "y")` — the new
key field equal to the canonical default — makes the type-expression
differ index an empty diff at `[0]` and panic (`none`), in both schemas,
and the panic propagates through a record-level diff (`TypeConcept`). -/
theorem typeDiffPanicEval :
    Proto.Ty.diff cliNone
        (Proto.Ty.complex (Proto.ComplexType.array (Proto.Ty.simple ("x"))))
        (Proto.Ty.complex
          (Proto.ComplexType.dictionary (Proto.Ty.simple ("")) (Proto.Ty.simple ("y")))) =
      none ∧
    Proto.TypeConcept.diff cliNone tcC4src tcC4tgt = none ∧
    Rt.Ty.diff cliNone
        (Rt.Ty.complex (Rt.ComplexType.array (Rt.Ty.simple ("x"))))
        (Rt.Ty.complex
          (Rt.ComplexType.dictionary (Rt.Ty.simple ("")) (Rt.Ty.simple ("y")))) = none := by
  have h1 : Proto.Ty.diff cliNone
      (Proto.Ty.complex (Proto.ComplexType.array (Proto.Ty.simple ("x"))))
      (Proto.Ty.complex
        (Proto.ComplexType.dictionary (Proto.Ty.simple ("")) (Proto.Ty.simple ("y")))) =
      none := by
    simp [Proto.Ty.diff, protoDictPanicAux]
  refine ⟨h1, ?_, ?_⟩
  · simp [Proto.TypeConcept.diff, tcC4src, tcC4tgt, Proto.TypeConcept.default_,
      Proto.typeFieldDiff, Proto.Ty.peq, Proto.ComplexType.peq, h1]
  · simp [Rt.Ty.diff, Rt.Ty.peq, Rt.ComplexType.peq, rtDictPanicAux]
